import Mathlib

/-!
Shallow embedding of the ssd1322 display driver (packages ssd1322 and
image4bit) and proofs about its framebuffer encoding, differential-update
engine, region extraction and device-session state machine.

Conventions of the embedding:
* Go byte values are `Nat` (with explicit bounds `< 256` where they matter);
  Go int values are `Int`.
* Go integer division truncates toward zero: `Int.tdiv` / `Int.tmod`.
* Go slices of bytes are `List Nat`; `copy(dst, src)` is `listCopy`.
* The SPI transport is an oracle `Nat → Bool` giving the success of the n-th
  transport operation, together with an explicit trace of the operations
  performed (`Ev`); `dc.Out` and `c.Tx` of one logical send are folded into a
  single fallible transport operation.
-/

set_option maxRecDepth 8000

namespace SSD1322

/-- Go image.Point. -/
structure Point where
  x : Int
  y : Int
deriving DecidableEq, Repr

/-- Go image.Rectangle: Min inclusive, Max exclusive. -/
structure Rectangle where
  minX : Int
  minY : Int
  maxX : Int
  maxY : Int
deriving DecidableEq, Repr

/-- Go image.Rect(x0, y0, x1, y1) for the already-ordered arguments used by
the driver (the swap-normalisation branch of Go never fires there). -/
def mkRect (x0 y0 x1 y1 : Int) : Rectangle := ⟨x0, y0, x1, y1⟩

def Rectangle.Dx (r : Rectangle) : Int := r.maxX - r.minX

def Rectangle.Dy (r : Rectangle) : Int := r.maxY - r.minY

/-- Go image.Point.In. -/
def Point.In (p : Point) (r : Rectangle) : Bool :=
  r.minX ≤ p.x && p.x < r.maxX && r.minY ≤ p.y && p.y < r.maxY

/-- Go image.Rectangle.Empty. -/
def Rectangle.Empty (r : Rectangle) : Bool :=
  r.maxX ≤ r.minX || r.maxY ≤ r.minY

/-- Go image.Rectangle.Intersect (returns the zero rectangle image.ZR when the
intersection is empty). -/
def Rectangle.Intersect (r s : Rectangle) : Rectangle :=
  let t : Rectangle :=
    ⟨max r.minX s.minX, max r.minY s.minY, min r.maxX s.maxX, min r.maxY s.maxY⟩
  if t.Empty then ⟨0, 0, 0, 0⟩ else t

/-- Go image.Rectangle.Add (translation by a point). -/
def Rectangle.Add (r : Rectangle) (p : Point) : Rectangle :=
  ⟨r.minX + p.x, r.minY + p.y, r.maxX + p.x, r.maxY + p.y⟩

/-- image4bit.Gray4: a 4-bit grayscale color. Y is a Go uint8. -/
structure Gray4 where
  Y : Nat
deriving DecidableEq, Repr

/-- Shallow model of color.Color: either a Gray4 or a generic color described
by the four 16-bit components its RGBA method returns. -/
inductive Color where
  | gray4 : Gray4 → Color
  | rgba : Nat → Nat → Nat → Nat → Color
deriving DecidableEq, Repr

/-- The RGBA method: image4bit.Gray4.RGBA for Gray4, the stored components
for a generic color. -/
def Color.RGBA : Color → Nat × Nat × Nat × Nat
  | .gray4 c => (((c.Y &&& 0x0F) * 0x1111), ((c.Y &&& 0x0F) * 0x1111),
                 ((c.Y &&& 0x0F) * 0x1111), 0xFFFF)
  | .rgba r g b a => (r, g, b, a)

/-- image4bit.toGray4 (the function behind Gray4Model). -/
def toGray4 (c : Color) : Gray4 :=
  match c with
  | .gray4 g => g
  | .rgba _ _ _ _ =>
    let q := c.RGBA
    let y := (299 * q.1 + 587 * q.2.1 + 114 * q.2.2.1 + 500) / 1000
    ⟨(y >>> 12) % 256⟩

/-- image4bit.HorizontalNibble: packed 4-bit raster, two pixels per byte. -/
structure HorizontalNibble where
  Pix : List Nat
  Stride : Nat
  Rect : Rectangle
deriving DecidableEq, Repr

/-- image4bit pixOffset. Only ever called on in-bounds coordinates, where
x - Rect.minX and y - Rect.minY are nonnegative and the Go int arithmetic
coincides with this Nat arithmetic. Go x & 1 equals the Euclidean x % 2. -/
def HorizontalNibble.pixOffset (p : HorizontalNibble) (x y : Int) : Nat × Nat :=
  ((y - p.Rect.minY).toNat * p.Stride + (x - p.Rect.minX).toNat / 2,
   (4 * (1 - x % 2)).toNat)

/-- image4bit.HorizontalNibble.Gray4At. -/
def HorizontalNibble.Gray4At (p : HorizontalNibble) (x y : Int) : Gray4 :=
  if Point.In ⟨x, y⟩ p.Rect then
    ⟨(p.Pix.getD (p.pixOffset x y).1 0 >>> (p.pixOffset x y).2) &&& 0x0F⟩
  else ⟨0⟩

/-- image4bit.HorizontalNibble.SetGray4. Go b &^ m on bytes is
b &&& (0xFF ^^^ m). -/
def HorizontalNibble.SetGray4 (p : HorizontalNibble) (x y : Int) (c : Gray4) :
    HorizontalNibble :=
  if Point.In ⟨x, y⟩ p.Rect then
    let offset := (p.pixOffset x y).1
    let shift := (p.pixOffset x y).2
    let b := (p.Pix.getD offset 0 &&& (0xFF ^^^ (0x0F <<< shift)))
               ||| ((c.Y &&& 0x0F) <<< shift)
    { p with Pix := p.Pix.set offset b }
  else p

/-- image4bit.HorizontalNibble.Set (converts through Gray4Model first). -/
def HorizontalNibble.Set (p : HorizontalNibble) (x y : Int) (c : Color) :
    HorizontalNibble :=
  if Point.In ⟨x, y⟩ p.Rect then
    let offset := (p.pixOffset x y).1
    let shift := (p.pixOffset x y).2
    let b := (p.Pix.getD offset 0 &&& (0xFF ^^^ (0x0F <<< shift)))
               ||| (((toGray4 c).Y &&& 0x0F) <<< shift)
    { p with Pix := p.Pix.set offset b }
  else p

/-- image4bit.NewHorizontalNibble for the even-width rectangles the driver
uses (the odd-width panic branch is never reached). -/
def NewHorizontalNibble (r : Rectangle) : HorizontalNibble :=
  if r.Dx < 0 || r.Dy < 0 then ⟨[], 0, r⟩
  else
    ⟨List.replicate ((r.Dx.tdiv 2).toNat * r.Dy.toNat) 0, (r.Dx.tdiv 2).toNat, r⟩

/-! ### Nibble arithmetic helper lemmas -/

theorem nibReadHigh : ∀ b < 256, (b >>> 4) &&& 0x0F = b >>> 4 := by decide

theorem nibSetGetHigh :
    ∀ b < 256, ∀ u < 16,
      (((b &&& (0xFF ^^^ (0x0F <<< 4))) ||| (u <<< 4)) >>> 4) &&& 0x0F = u := by decide

theorem nibSetGetLow :
    ∀ b < 256, ∀ u < 16,
      (((b &&& (0xFF ^^^ (0x0F <<< 0))) ||| (u <<< 0)) >>> 0) &&& 0x0F = u := by decide

theorem row_major_lt (s h y r : Nat) (hy : y < h) (hr : r < s) : y * s + r < s * h := by
  have h1 : (y + 1) * s = y * s + s := by ring
  have h2 : (y + 1) * s ≤ h * s := Nat.mul_le_mul_right s hy
  have h3 : h * s = s * h := Nat.mul_comm h s
  omega

theorem pix_in_true (w h : Nat) (p : HorizontalNibble) (hr : p.Rect = mkRect 0 0 w h)
    (x y : Nat) (hx : x < w) (hy : y < h) :
    Point.In ⟨(x : Int), (y : Int)⟩ p.Rect = true := by
  rw [hr]
  simp only [Point.In, mkRect, Bool.and_eq_true, decide_eq_true_eq]
  refine ⟨⟨⟨?_, ?_⟩, ?_⟩, ?_⟩ <;> omega

theorem pixOffset_eval (w h : Nat) (p : HorizontalNibble) (hr : p.Rect = mkRect 0 0 w h)
    (hs : p.Stride = w / 2) (x y : Nat) :
    p.pixOffset x y = (y * (w / 2) + x / 2, if x % 2 = 0 then 4 else 0) := by
  rw [HorizontalNibble.pixOffset, hr, hs]
  simp only [mkRect]
  rcases Nat.mod_two_eq_zero_or_one x with hp | hp
  · have h2 : (x : Int) % 2 = 0 := by omega
    simp [h2, hp]
  · have h2 : (x : Int) % 2 = 1 := by omega
    simp [h2, hp]

theorem gray4At_formula (w h : Nat) (p : HorizontalNibble) (hr : p.Rect = mkRect 0 0 w h)
    (hs : p.Stride = w / 2) (x y : Nat) (hx : x < w) (hy : y < h) :
    p.Gray4At x y =
      ⟨(p.Pix.getD (y * (w / 2) + x / 2) 0 >>> (if x % 2 = 0 then 4 else 0)) &&& 0x0F⟩ := by
  have hin := pix_in_true w h p hr x y hx hy
  have hoff := pixOffset_eval w h p hr hs x y
  simp [HorizontalNibble.Gray4At, hin, hoff]

/-! ### C4 -/

/-- C4: in a stored frame with stride = width/2, the pixel (x,y) is stored at
byte offset y*stride + x/2, in the high nibble (shift 4) when x is even and
the low nibble (shift 0) when x is odd; equivalently the byte b at row y,
byte-column i encodes pixel(2i) = b >> 4 and pixel(2i+1) = b &&& 0xF. -/
theorem pixel_layout (w h : Nat) (p : HorizontalNibble) (hr : p.Rect = mkRect 0 0 w h)
    (hs : p.Stride = w / 2) (hbytes : ∀ b ∈ p.Pix, b < 256)
    (hlen : p.Pix.length = w / 2 * h) :
    (∀ x y, x < w → y < h →
      p.Gray4At x y =
        ⟨(p.Pix.getD (y * (w / 2) + x / 2) 0 >>> (if x % 2 = 0 then 4 else 0)) &&& 0x0F⟩) ∧
    (∀ i y, 2 * i + 1 < w → y < h →
      p.Gray4At ((2 * i : Nat) : Int) y = ⟨p.Pix.getD (y * (w / 2) + i) 0 >>> 4⟩ ∧
      p.Gray4At ((2 * i + 1 : Nat) : Int) y = ⟨p.Pix.getD (y * (w / 2) + i) 0 &&& 0x0F⟩) := by
  constructor
  · intro x y hx hy
    exact gray4At_formula w h p hr hs x y hx hy
  · intro i y hi hy
    have hblt : p.Pix.getD (y * (w / 2) + i) 0 < 256 := by
      by_cases hidx : y * (w / 2) + i < p.Pix.length
      · rw [List.getD_eq_getElem p.Pix 0 hidx]
        exact hbytes _ (List.getElem_mem hidx)
      · rw [List.getD_eq_getElem?_getD, List.getElem?_eq_none (by omega)]
        decide
    constructor
    · have hform := gray4At_formula w h p hr hs (2 * i) y (by omega) hy
      have hdiv : 2 * i / 2 = i := by omega
      have hmod : 2 * i % 2 = 0 := by omega
      rw [hform, hdiv, hmod]
      simp only [if_pos rfl]
      exact congrArg Gray4.mk (nibReadHigh _ hblt)
    · have hform := gray4At_formula w h p hr hs (2 * i + 1) y (by omega) hy
      have hdiv : (2 * i + 1) / 2 = i := by omega
      have hmod : (2 * i + 1) % 2 = 1 := by omega
      rw [hform, hdiv, hmod]
      simp

/-- C4 witness at a concrete instance. -/
theorem pixel_layout_witness :
    (⟨[0x5A, 0x3C], 2, mkRect 0 0 4 1⟩ : HorizontalNibble).Gray4At 2 0 = ⟨3⟩ ∧
    (⟨[0x5A, 0x3C], 2, mkRect 0 0 4 1⟩ : HorizontalNibble).Gray4At 3 0 = ⟨12⟩ := by
  have h := (pixel_layout 4 1 ⟨[0x5A, 0x3C], 2, mkRect 0 0 4 1⟩ rfl rfl
      (by decide) (by decide)).2 1 0 (by decide) (by decide)
  exact ⟨h.1.trans (by decide), h.2.trans (by decide)⟩

/-! ### C5 -/

/-- C5: for every in-bounds coordinate and every byte value v, SetGray4 masks
the value to its low 4 bits and a subsequent Gray4At at the same coordinate
returns v &&& 0xF. -/
theorem set_then_get (w h : Nat) (p : HorizontalNibble) (hr : p.Rect = mkRect 0 0 w h)
    (hs : p.Stride = w / 2) (hw : w % 2 = 0) (hlen : p.Pix.length = w / 2 * h)
    (hbytes : ∀ b ∈ p.Pix, b < 256)
    (x y : Nat) (hx : x < w) (hy : y < h) (v : Nat) (hv : v ≤ 255) :
    (p.SetGray4 x y ⟨v⟩).Gray4At x y = ⟨v &&& 0x0F⟩ := by
  have hin := pix_in_true w h p hr x y hx hy
  have hoff := pixOffset_eval w h p hr hs x y
  have hidx : y * (w / 2) + x / 2 < p.Pix.length := by
    rw [hlen]
    exact row_major_lt (w / 2) h y (x / 2) hy (by omega)
  have hold : p.Pix.getD (y * (w / 2) + x / 2) 0 < 256 := by
    rw [List.getD_eq_getElem p.Pix 0 hidx]
    exact hbytes _ (List.getElem_mem hidx)
  have hu : v &&& 0x0F < 16 := Nat.lt_succ_of_le Nat.and_le_right
  have hRect : (p.SetGray4 x y ⟨v⟩).Rect = mkRect 0 0 w h := by
    rw [HorizontalNibble.SetGray4, if_pos hin]
    exact hr
  have hStride : (p.SetGray4 x y ⟨v⟩).Stride = w / 2 := by
    rw [HorizontalNibble.SetGray4, if_pos hin]
    exact hs
  have hPix : (p.SetGray4 x y ⟨v⟩).Pix
      = p.Pix.set (y * (w / 2) + x / 2)
          ((p.Pix.getD (y * (w / 2) + x / 2) 0
              &&& (0xFF ^^^ (0x0F <<< (if x % 2 = 0 then 4 else 0))))
            ||| ((v &&& 0x0F) <<< (if x % 2 = 0 then 4 else 0))) := by
    rw [HorizontalNibble.SetGray4, if_pos hin]
    simp only [hoff]
  have hform := gray4At_formula w h (p.SetGray4 x y ⟨v⟩) hRect hStride x y hx hy
  rw [hform, hPix]
  have hgetset : (p.Pix.set (y * (w / 2) + x / 2)
      ((p.Pix.getD (y * (w / 2) + x / 2) 0
          &&& (0xFF ^^^ (0x0F <<< (if x % 2 = 0 then 4 else 0))))
        ||| ((v &&& 0x0F) <<< (if x % 2 = 0 then 4 else 0)))).getD (y * (w / 2) + x / 2) 0
      = (p.Pix.getD (y * (w / 2) + x / 2) 0
          &&& (0xFF ^^^ (0x0F <<< (if x % 2 = 0 then 4 else 0))))
        ||| ((v &&& 0x0F) <<< (if x % 2 = 0 then 4 else 0)) := by
    rw [List.getD_eq_getElem _ 0 (by simpa using hidx)]
    exact List.getElem_set_self _
  rw [hgetset]
  rcases Nat.mod_two_eq_zero_or_one x with hp | hp
  · have hp0 : (x % 2 = 0) := hp
    simp only [hp0, if_pos rfl]
    exact congrArg Gray4.mk (nibSetGetHigh _ hold _ hu)
  · have hp1 : ¬(x % 2 = 0) := by omega
    simp only [if_neg hp1]
    exact congrArg Gray4.mk (nibSetGetLow _ hold _ hu)

/-- C5 witness at a concrete instance. -/
theorem set_then_get_witness :
    ((⟨[0, 0], 2, mkRect 0 0 4 1⟩ : HorizontalNibble).SetGray4 1 0 ⟨0xAB⟩).Gray4At 1 0
      = ⟨0x0B⟩ := by
  have h := set_then_get 4 1 ⟨[0, 0], 2, mkRect 0 0 4 1⟩ rfl rfl (by decide) (by decide)
    (by decide) 1 0 (by decide) (by decide) 0xAB (by decide)
  exact h.trans (by decide)

/-! ### C8 -/

/-- C8: out-of-bounds Gray4At returns 0 and never fails; out-of-bounds
SetGray4 and Set leave the backing buffer byte-for-byte unchanged and signal
no error. -/
theorem out_of_bounds_ops (w h : Int) (p : HorizontalNibble)
    (hr : p.Rect = mkRect 0 0 w h) (x y : Int)
    (hout : ¬(0 ≤ x ∧ x < w ∧ 0 ≤ y ∧ y < h)) (v : Gray4) (c : Color) :
    p.Gray4At x y = ⟨0⟩ ∧ p.SetGray4 x y v = p ∧ p.Set x y c = p := by
  have hin : Point.In ⟨x, y⟩ p.Rect = false := by
    rw [hr]
    simp only [Point.In, mkRect, Bool.and_eq_false_iff, decide_eq_false_iff_not, not_le,
      not_lt]
    omega
  refine ⟨?_, ?_, ?_⟩
  · simp [HorizontalNibble.Gray4At, hin]
  · simp [HorizontalNibble.SetGray4, hin]
  · simp [HorizontalNibble.Set, hin]

/-- C8 witness at concrete out-of-bounds coordinates. -/
theorem out_of_bounds_ops_witness :
    (⟨[0x12, 0x34], 2, mkRect 0 0 4 1⟩ : HorizontalNibble).Gray4At (-1) 0 = ⟨0⟩ ∧
    (⟨[0x12, 0x34], 2, mkRect 0 0 4 1⟩ : HorizontalNibble).SetGray4 4 0 ⟨9⟩
      = ⟨[0x12, 0x34], 2, mkRect 0 0 4 1⟩ ∧
    (⟨[0x12, 0x34], 2, mkRect 0 0 4 1⟩ : HorizontalNibble).Set 0 (-1) (.rgba 1 2 3 4)
      = ⟨[0x12, 0x34], 2, mkRect 0 0 4 1⟩ := by
  have h1 := out_of_bounds_ops 4 1 ⟨[0x12, 0x34], 2, mkRect 0 0 4 1⟩ rfl (-1) 0
    (by omega) ⟨9⟩ (.rgba 1 2 3 4)
  have h2 := out_of_bounds_ops 4 1 ⟨[0x12, 0x34], 2, mkRect 0 0 4 1⟩ rfl 4 0
    (by omega) ⟨9⟩ (.rgba 1 2 3 4)
  have h3 := out_of_bounds_ops 4 1 ⟨[0x12, 0x34], 2, mkRect 0 0 4 1⟩ rfl 0 (-1)
    (by omega) ⟨9⟩ (.rgba 1 2 3 4)
  exact ⟨h1.1, h2.2.1, h3.2.2⟩

/-! ### DiffEngine: calculateDiff (ssd1322.go) -/

/-- The four change-tracking bounds of calculateDiff. -/
structure DiffAcc where
  minCol : Int
  maxCol : Int
  minRow : Int
  maxRow : Int
deriving DecidableEq, Repr

/-- One byte of a pixel buffer. -/
def byteAt (l : List Nat) (idx : Nat) : Nat := l.getD idx 0

/-- Go slice l[rowStart : rowStart+stride]. -/
def rowSlice (l : List Nat) (rowStart stride : Nat) : List Nat :=
  (l.drop rowStart).take stride

/-- The negated bytes.Equal row comparison of calculateDiff. -/
def rowDiffers (last next : List Nat) (stride y : Nat) : Bool :=
  !(rowSlice last (y * stride) stride == rowSlice next (y * stride) stride)

/-- The per-byte update of the inner column scan of calculateDiff. -/
def scanStep (last next : List Nat) (rowStart : Nat) (a : DiffAcc) (x : Nat) : DiffAcc :=
  if byteAt last (rowStart + x) ≠ byteAt next (rowStart + x) then
    { a with
      minCol := if (2 * x : Int) < a.minCol then (2 * x : Int) else a.minCol,
      maxCol := if (2 * x + 1 : Int) > a.maxCol then (2 * x + 1 : Int) else a.maxCol }
  else a

/-- Processing one row of calculateDiff: the row comparison, the minRow/maxRow
update and the inner column scan. -/
def rowUpdate (last next : List Nat) (stride : Nat) (a : DiffAcc) (y : Nat) : DiffAcc :=
  if rowDiffers last next stride y then
    let a1 : DiffAcc :=
      { a with
        minRow := if (y : Int) < a.minRow then (y : Int) else a.minRow,
        maxRow := if (y : Int) > a.maxRow then (y : Int) else a.maxRow }
    (List.range stride).foldl (scanStep last next (y * stride)) a1
  else a

/-- ssd1322 calculateDiff on the two backing buffers (lastDm.Pix and
next.Pix). Go % on int is truncated: Int.tmod. -/
def calculateDiff (width height : Nat) (last next : List Nat) : DiffAcc :=
  let stride := width / 2
  let a := (List.range height).foldl (rowUpdate last next stride)
    ⟨(width : Int), -1, (height : Int), -1⟩
  let minCol := if Int.tmod a.minCol 2 ≠ 0 then a.minCol - 1 else a.minCol
  let maxCol :=
    if Int.tmod a.maxCol 2 = 0 ∧ a.maxCol < (width : Int) - 1 then a.maxCol + 1
    else a.maxCol
  ⟨minCol, maxCol, a.minRow, a.maxRow⟩

/-- The byte at row y, byte-column x differs between the two buffers. -/
def ByteDiff (last next : List Nat) (stride y x : Nat) : Prop :=
  byteAt last (y * stride + x) ≠ byteAt next (y * stride + x)

instance (last next : List Nat) (stride y x : Nat) :
    Decidable (ByteDiff last next stride y x) := by
  unfold ByteDiff
  infer_instance

/-! #### Characterisation of the calculateDiff folds -/

theorem scan_fold_spec (last next : List Nat) (rowStart : Nat) (s : Nat) (a : DiffAcc) :
    (((List.range s).foldl (scanStep last next rowStart) a).minRow = a.minRow) ∧
    (((List.range s).foldl (scanStep last next rowStart) a).maxRow = a.maxRow) ∧
    (((List.range s).foldl (scanStep last next rowStart) a).minCol ≤ a.minCol) ∧
    (a.maxCol ≤ ((List.range s).foldl (scanStep last next rowStart) a).maxCol) ∧
    (∀ x, x < s → byteAt last (rowStart + x) ≠ byteAt next (rowStart + x) →
      ((List.range s).foldl (scanStep last next rowStart) a).minCol ≤ (2 * x : Int) ∧
      (2 * x + 1 : Int) ≤ ((List.range s).foldl (scanStep last next rowStart) a).maxCol) ∧
    (((List.range s).foldl (scanStep last next rowStart) a).minCol = a.minCol ∨
      ∃ x, x < s ∧ byteAt last (rowStart + x) ≠ byteAt next (rowStart + x) ∧
        ((List.range s).foldl (scanStep last next rowStart) a).minCol = (2 * x : Int)) ∧
    (((List.range s).foldl (scanStep last next rowStart) a).maxCol = a.maxCol ∨
      ∃ x, x < s ∧ byteAt last (rowStart + x) ≠ byteAt next (rowStart + x) ∧
        ((List.range s).foldl (scanStep last next rowStart) a).maxCol = (2 * x + 1 : Int)) := by
  induction s with
  | zero =>
    simp [List.range_zero]
  | succ n ih =>
    rw [List.range_succ, List.foldl_append]
    obtain ⟨ih1, ih2, ih3, ih4, ih5, ih6, ih7⟩ := ih
    set r := (List.range n).foldl (scanStep last next rowStart) a with hr
    by_cases hd : byteAt last (rowStart + n) ≠ byteAt next (rowStart + n)
    · rw [List.foldl_cons, List.foldl_nil, scanStep, if_pos hd]
      refine ⟨ih1, ih2, ?_, ?_, ?_, ?_, ?_⟩
      · dsimp only
        split <;> omega
      · dsimp only
        split <;> omega
      · intro x hx hxd
        dsimp only
        rcases Nat.lt_succ_iff_lt_or_eq.mp hx with hx1 | hx1
        · have := ih5 x hx1 hxd
          constructor
          · split <;> omega
          · split <;> omega
        · subst hx1
          constructor
          · split <;> omega
          · split <;> omega
      · dsimp only
        split
        · exact Or.inr ⟨n, Nat.lt_succ_self n, hd, rfl⟩
        · rcases ih6 with h6 | ⟨x, hx, hxd, hxe⟩
          · exact Or.inl h6
          · exact Or.inr ⟨x, Nat.lt_succ_of_lt hx, hxd, hxe⟩
      · dsimp only
        split
        · exact Or.inr ⟨n, Nat.lt_succ_self n, hd, rfl⟩
        · rcases ih7 with h7 | ⟨x, hx, hxd, hxe⟩
          · exact Or.inl h7
          · exact Or.inr ⟨x, Nat.lt_succ_of_lt hx, hxd, hxe⟩
    · rw [List.foldl_cons, List.foldl_nil, scanStep, if_neg hd]
      refine ⟨ih1, ih2, ih3, ih4, ?_, ?_, ?_⟩
      · intro x hx hxd
        rcases Nat.lt_succ_iff_lt_or_eq.mp hx with hx1 | hx1
        · exact ih5 x hx1 hxd
        · subst hx1
          exact absurd hxd hd
      · rcases ih6 with h6 | ⟨x, hx, hxd, hxe⟩
        · exact Or.inl h6
        · exact Or.inr ⟨x, Nat.lt_succ_of_lt hx, hxd, hxe⟩
      · rcases ih7 with h7 | ⟨x, hx, hxd, hxe⟩
        · exact Or.inl h7
        · exact Or.inr ⟨x, Nat.lt_succ_of_lt hx, hxd, hxe⟩

theorem rowSlice_length (l : List Nat) (rowStart stride : Nat)
    (h : rowStart + stride ≤ l.length) : (rowSlice l rowStart stride).length = stride := by
  simp only [rowSlice, List.length_take, List.length_drop]
  omega

theorem rowSlice_getElem (l : List Nat) (rowStart stride n : Nat)
    (h : n < (rowSlice l rowStart stride).length) (h2 : rowStart + n < l.length) :
    (rowSlice l rowStart stride)[n] = l[rowStart + n] := by
  simp only [rowSlice] at h ⊢
  rw [List.getElem_take, List.getElem_drop]

theorem rowSlice_getD (l : List Nat) (rowStart stride n : Nat) (hn : n < stride)
    (hlen : rowStart + stride ≤ l.length) :
    (rowSlice l rowStart stride).getD n 0 = byteAt l (rowStart + n) := by
  have h1 : n < (rowSlice l rowStart stride).length := by
    rw [rowSlice_length l rowStart stride hlen]
    exact hn
  have h2 : rowStart + n < l.length := by omega
  have e1 : byteAt l (rowStart + n) = l[rowStart + n] := List.getD_eq_getElem l 0 h2
  rw [List.getD_eq_getElem _ 0 h1, e1]
  exact rowSlice_getElem l rowStart stride n h1 h2

theorem rowDiffers_iff (last next : List Nat) (stride y : Nat)
    (hlast : y * stride + stride ≤ last.length)
    (hnext : y * stride + stride ≤ next.length) :
    rowDiffers last next stride y = true ↔
      ∃ x, x < stride ∧ ByteDiff last next stride y x := by
  rw [rowDiffers, Bool.not_eq_true', beq_eq_false_iff_ne]
  constructor
  · intro hne
    by_contra hno
    push_neg at hno
    apply hne
    apply List.ext_getElem
    · rw [rowSlice_length _ _ _ hlast, rowSlice_length _ _ _ hnext]
    · intro n h1 h2
      have hn : n < stride := by
        have := rowSlice_length last (y * stride) stride hlast
        omega
      rw [rowSlice_getElem last (y * stride) stride n h1 (by omega),
        rowSlice_getElem next (y * stride) stride n h2 (by omega)]
      have hb := hno n hn
      simp only [ByteDiff, not_not, byteAt] at hb
      rw [List.getD_eq_getElem last 0 (by omega),
        List.getD_eq_getElem next 0 (by omega)] at hb
      exact hb
  · rintro ⟨x, hx, hbd⟩ heq
    apply hbd
    show byteAt last (y * stride + x) = byteAt next (y * stride + x)
    rw [← rowSlice_getD last (y * stride) stride x hx hlast,
      ← rowSlice_getD next (y * stride) stride x hx hnext, heq]

theorem row_fold_spec (last next : List Nat) (stride h : Nat) (a : DiffAcc)
    (hlast : h * stride ≤ last.length) (hnext : h * stride ≤ next.length) :
    (((List.range h).foldl (rowUpdate last next stride) a).minCol ≤ a.minCol) ∧
    (a.maxCol ≤ ((List.range h).foldl (rowUpdate last next stride) a).maxCol) ∧
    (((List.range h).foldl (rowUpdate last next stride) a).minRow ≤ a.minRow) ∧
    (a.maxRow ≤ ((List.range h).foldl (rowUpdate last next stride) a).maxRow) ∧
    (∀ y x, y < h → x < stride → ByteDiff last next stride y x →
      ((List.range h).foldl (rowUpdate last next stride) a).minRow ≤ (y : Int) ∧
      (y : Int) ≤ ((List.range h).foldl (rowUpdate last next stride) a).maxRow ∧
      ((List.range h).foldl (rowUpdate last next stride) a).minCol ≤ (2 * x : Int) ∧
      (2 * x + 1 : Int) ≤ ((List.range h).foldl (rowUpdate last next stride) a).maxCol) ∧
    (((List.range h).foldl (rowUpdate last next stride) a).minRow = a.minRow ∨
      ∃ y x, y < h ∧ x < stride ∧ ByteDiff last next stride y x ∧
        ((List.range h).foldl (rowUpdate last next stride) a).minRow = (y : Int)) ∧
    (((List.range h).foldl (rowUpdate last next stride) a).maxRow = a.maxRow ∨
      ∃ y x, y < h ∧ x < stride ∧ ByteDiff last next stride y x ∧
        ((List.range h).foldl (rowUpdate last next stride) a).maxRow = (y : Int)) ∧
    (((List.range h).foldl (rowUpdate last next stride) a).minCol = a.minCol ∨
      ∃ y x, y < h ∧ x < stride ∧ ByteDiff last next stride y x ∧
        ((List.range h).foldl (rowUpdate last next stride) a).minCol = (2 * x : Int)) ∧
    (((List.range h).foldl (rowUpdate last next stride) a).maxCol = a.maxCol ∨
      ∃ y x, y < h ∧ x < stride ∧ ByteDiff last next stride y x ∧
        ((List.range h).foldl (rowUpdate last next stride) a).maxCol = (2 * x + 1 : Int)) := by
  induction h with
  | zero =>
    simp [List.range_zero]
  | succ n ih =>
    have hmul : (n + 1) * stride = n * stride + stride := by ring
    have hlast' : n * stride ≤ last.length := by omega
    have hnext' : n * stride ≤ next.length := by omega
    have hrowlast : n * stride + stride ≤ last.length := by omega
    have hrownext : n * stride + stride ≤ next.length := by omega
    obtain ⟨ih1, ih2, ih3, ih4, ih5, ih6, ih7, ih8, ih9⟩ := ih hlast' hnext'
    rw [List.range_succ, List.foldl_append, List.foldl_cons, List.foldl_nil]
    set r := (List.range n).foldl (rowUpdate last next stride) a with hrdef
    rw [rowUpdate]
    by_cases hrd : rowDiffers last next stride n = true
    · rw [if_pos hrd]
      have hex : ∃ x, x < stride ∧ ByteDiff last next stride n x :=
        (rowDiffers_iff last next stride n hrowlast hrownext).mp hrd
      obtain ⟨s1, s2, s3, s4, s5, s6, s7⟩ := scan_fold_spec last next (n * stride) stride
        { r with
          minRow := if (n : Int) < r.minRow then (n : Int) else r.minRow,
          maxRow := if (n : Int) > r.maxRow then (n : Int) else r.maxRow }
      rw [s1, s2]
      dsimp only at s3 s4 s5 s6 s7 ⊢
      refine ⟨by omega, by omega, by split <;> omega, by split <;> omega, ?_, ?_, ?_, ?_, ?_⟩
      · intro y x hy hx hbd
        rcases Nat.lt_succ_iff_lt_or_eq.mp hy with hy1 | hy1
        · have := ih5 y x hy1 hx hbd
          refine ⟨by split <;> omega, by split <;> omega, by omega, by omega⟩
        · rw [hy1] at hbd
          have hb : byteAt last (n * stride + x) ≠ byteAt next (n * stride + x) := hbd
          have := s5 x hx hb
          refine ⟨by split <;> omega, by split <;> omega, by omega, by omega⟩
      · split
        · obtain ⟨x, hx, hbd⟩ := hex
          exact Or.inr ⟨n, x, Nat.lt_succ_self n, hx, hbd, rfl⟩
        · rcases ih6 with h | ⟨y, x, hy, hx, hbd, he⟩
          · exact Or.inl h
          · exact Or.inr ⟨y, x, Nat.lt_succ_of_lt hy, hx, hbd, he⟩
      · split
        · obtain ⟨x, hx, hbd⟩ := hex
          exact Or.inr ⟨n, x, Nat.lt_succ_self n, hx, hbd, rfl⟩
        · rcases ih7 with h | ⟨y, x, hy, hx, hbd, he⟩
          · exact Or.inl h
          · exact Or.inr ⟨y, x, Nat.lt_succ_of_lt hy, hx, hbd, he⟩
      · rcases s6 with s6e | ⟨x, hx, hxb, hxe⟩
        · rw [s6e]
          rcases ih8 with h | ⟨y, x, hy, hx, hbd, he⟩
          · exact Or.inl h
          · exact Or.inr ⟨y, x, Nat.lt_succ_of_lt hy, hx, hbd, he⟩
        · exact Or.inr ⟨n, x, Nat.lt_succ_self n, hx, hxb, hxe⟩
      · rcases s7 with s7e | ⟨x, hx, hxb, hxe⟩
        · rw [s7e]
          rcases ih9 with h | ⟨y, x, hy, hx, hbd, he⟩
          · exact Or.inl h
          · exact Or.inr ⟨y, x, Nat.lt_succ_of_lt hy, hx, hbd, he⟩
        · exact Or.inr ⟨n, x, Nat.lt_succ_self n, hx, hxb, hxe⟩
    · rw [if_neg hrd]
      have hnone : ∀ x, x < stride → ¬ByteDiff last next stride n x := by
        intro x hx hbd
        exact hrd ((rowDiffers_iff last next stride n hrowlast hrownext).mpr ⟨x, hx, hbd⟩)
      refine ⟨ih1, ih2, ih3, ih4, ?_, ?_, ?_, ?_, ?_⟩
      · intro y x hy hx hbd
        rcases Nat.lt_succ_iff_lt_or_eq.mp hy with hy1 | hy1
        · exact ih5 y x hy1 hx hbd
        · rw [hy1] at hbd
          exact absurd hbd (hnone x hx)
      · rcases ih6 with h | ⟨y, x, hy, hx, hbd, he⟩
        · exact Or.inl h
        · exact Or.inr ⟨y, x, Nat.lt_succ_of_lt hy, hx, hbd, he⟩
      · rcases ih7 with h | ⟨y, x, hy, hx, hbd, he⟩
        · exact Or.inl h
        · exact Or.inr ⟨y, x, Nat.lt_succ_of_lt hy, hx, hbd, he⟩
      · rcases ih8 with h | ⟨y, x, hy, hx, hbd, he⟩
        · exact Or.inl h
        · exact Or.inr ⟨y, x, Nat.lt_succ_of_lt hy, hx, hbd, he⟩
      · rcases ih9 with h | ⟨y, x, hy, hx, hbd, he⟩
        · exact Or.inl h
        · exact Or.inr ⟨y, x, Nat.lt_succ_of_lt hy, hx, hbd, he⟩

theorem diffAcc_ext (a b : DiffAcc) (h1 : a.minCol = b.minCol) (h2 : a.maxCol = b.maxCol)
    (h3 : a.minRow = b.minRow) (h4 : a.maxRow = b.maxRow) : a = b := by
  cases a
  cases b
  simp_all

theorem tmod_two_natCast (n : Nat) : Int.tmod ((n : Nat) : Int) 2 = ((n % 2 : Nat) : Int) :=
  rfl

theorem tmod_two_of_even (k : Int) (hk : ∃ n : Nat, k = 2 * (n : Int)) :
    Int.tmod k 2 = 0 := by
  obtain ⟨n, rfl⟩ := hk
  have h1 : (2 : Int) * (n : Int) = ((2 * n : Nat) : Int) := by push_cast; ring
  rw [h1, tmod_two_natCast]
  simp [Nat.mul_mod_right]

theorem tmod_two_of_odd (k : Int) (hk : ∃ n : Nat, k = 2 * (n : Int) + 1) :
    Int.tmod k 2 = 1 := by
  obtain ⟨n, rfl⟩ := hk
  have h1 : (2 : Int) * (n : Int) + 1 = ((2 * n + 1 : Nat) : Int) := by push_cast; ring
  rw [h1, tmod_two_natCast]
  rw [Nat.add_mod, Nat.mul_mod_right]
  rfl

theorem fold_of_no_diff (w h : Nat) (last next : List Nat)
    (hlast : h * (w / 2) ≤ last.length) (hnext : h * (w / 2) ≤ next.length)
    (hno : ∀ y x, y < h → x < w / 2 → ¬ByteDiff last next (w / 2) y x) :
    (List.range h).foldl (rowUpdate last next (w / 2)) ⟨(w : Int), -1, (h : Int), -1⟩
      = ⟨(w : Int), -1, (h : Int), -1⟩ := by
  obtain ⟨f1, f2, f3, f4, f5, f6, f7, f8, f9⟩ :=
    row_fold_spec last next (w / 2) h ⟨(w : Int), -1, (h : Int), -1⟩ hlast hnext
  apply diffAcc_ext
  · rcases f8 with he | ⟨y, x, hy, hx, hbd, _⟩
    · exact he
    · exact absurd hbd (hno y x hy hx)
  · rcases f9 with he | ⟨y, x, hy, hx, hbd, _⟩
    · exact he
    · exact absurd hbd (hno y x hy hx)
  · rcases f6 with he | ⟨y, x, hy, hx, hbd, _⟩
    · exact he
    · exact absurd hbd (hno y x hy hx)
  · rcases f7 with he | ⟨y, x, hy, hx, hbd, _⟩
    · exact he
    · exact absurd hbd (hno y x hy hx)

theorem calculateDiff_of_no_diff (w h : Nat) (hw : w % 2 = 0) (last next : List Nat)
    (hlast : h * (w / 2) ≤ last.length) (hnext : h * (w / 2) ≤ next.length)
    (hno : ∀ y x, y < h → x < w / 2 → ¬ByteDiff last next (w / 2) y x) :
    calculateDiff w h last next = ⟨(w : Int), -1, (h : Int), -1⟩ := by
  have hf := fold_of_no_diff w h last next hlast hnext hno
  simp only [calculateDiff]
  rw [hf]
  have h1 : Int.tmod ((w : Nat) : Int) 2 = 0 := by
    rw [tmod_two_natCast, hw]
    rfl
  have h2 : Int.tmod (-1 : Int) 2 = -1 := by decide
  simp only [h1, h2]
  norm_num

theorem calculateDiff_of_diff (w h : Nat) (hw : w % 2 = 0) (hw0 : 0 < w)
    (last next : List Nat)
    (hlast : h * (w / 2) ≤ last.length) (hnext : h * (w / 2) ≤ next.length)
    (hex : ∃ y x, y < h ∧ x < w / 2 ∧ ByteDiff last next (w / 2) y x) :
    ∃ xm xM ym yM : Nat,
      calculateDiff w h last next
        = ⟨2 * (xm : Int), 2 * (xM : Int) + 1, (ym : Int), (yM : Int)⟩ ∧
      xm < w / 2 ∧ xM < w / 2 ∧ ym < h ∧ yM < h ∧
      (∃ y, y < h ∧ ByteDiff last next (w / 2) y xm) ∧
      (∃ y, y < h ∧ ByteDiff last next (w / 2) y xM) ∧
      (∃ x, x < w / 2 ∧ ByteDiff last next (w / 2) ym x) ∧
      (∃ x, x < w / 2 ∧ ByteDiff last next (w / 2) yM x) ∧
      (∀ y x, y < h → x < w / 2 → ByteDiff last next (w / 2) y x →
        (ym : Int) ≤ (y : Int) ∧ (y : Int) ≤ (yM : Int) ∧
        (2 * (xm : Int)) ≤ 2 * (x : Int) ∧ 2 * (x : Int) + 1 ≤ 2 * (xM : Int) + 1) := by
  obtain ⟨f1, f2, f3, f4, f5, f6, f7, f8, f9⟩ :=
    row_fold_spec last next (w / 2) h ⟨(w : Int), -1, (h : Int), -1⟩ hlast hnext
  obtain ⟨y0, x0, hy0, hx0, hbd0⟩ := hex
  have hb5 := f5 y0 x0 hy0 hx0 hbd0
  have hxw : (2 * (x0 : Int)) < (w : Int) := by omega
  obtain ⟨ym, xw1, hym, hxw1, hbdm, hem⟩ : ∃ y x, y < h ∧ x < w / 2 ∧
      ByteDiff last next (w / 2) y x ∧
      ((List.range h).foldl (rowUpdate last next (w / 2))
        ⟨(w : Int), -1, (h : Int), -1⟩).minRow = (y : Int) := by
    rcases f6 with he | ⟨y, x, hy, hx, hbd, he⟩
    · exfalso
      rw [he] at hb5
      dsimp only at hb5
      omega
    · exact ⟨y, x, hy, hx, hbd, he⟩
  obtain ⟨yM, xw2, hyM, hxw2, hbdM, heM⟩ : ∃ y x, y < h ∧ x < w / 2 ∧
      ByteDiff last next (w / 2) y x ∧
      ((List.range h).foldl (rowUpdate last next (w / 2))
        ⟨(w : Int), -1, (h : Int), -1⟩).maxRow = (y : Int) := by
    rcases f7 with he | ⟨y, x, hy, hx, hbd, he⟩
    · exfalso
      rw [he] at hb5
      dsimp only at hb5
      omega
    · exact ⟨y, x, hy, hx, hbd, he⟩
  obtain ⟨ycm, xm, hycm, hxm, hbdcm, hecm⟩ : ∃ y x, y < h ∧ x < w / 2 ∧
      ByteDiff last next (w / 2) y x ∧
      ((List.range h).foldl (rowUpdate last next (w / 2))
        ⟨(w : Int), -1, (h : Int), -1⟩).minCol = 2 * (x : Int) := by
    rcases f8 with he | ⟨y, x, hy, hx, hbd, he⟩
    · exfalso
      rw [he] at hb5
      dsimp only at hb5
      omega
    · exact ⟨y, x, hy, hx, hbd, he⟩
  obtain ⟨ycM, xM, hycM, hxM, hbdcM, hecM⟩ : ∃ y x, y < h ∧ x < w / 2 ∧
      ByteDiff last next (w / 2) y x ∧
      ((List.range h).foldl (rowUpdate last next (w / 2))
        ⟨(w : Int), -1, (h : Int), -1⟩).maxCol = 2 * (x : Int) + 1 := by
    rcases f9 with he | ⟨y, x, hy, hx, hbd, he⟩
    · exfalso
      rw [he] at hb5
      dsimp only at hb5
      omega
    · exact ⟨y, x, hy, hx, hbd, he⟩
  refine ⟨xm, xM, ym, yM, ?_, hxm, hxM, hym, hyM,
    ⟨ycm, hycm, hbdcm⟩, ⟨ycM, hycM, hbdcM⟩, ⟨xw1, hxw1, hbdm⟩, ⟨xw2, hxw2, hbdM⟩, ?_⟩
  · simp only [calculateDiff]
    rw [hecm, hecM, hem, heM]
    have hmod1 : Int.tmod (2 * (xm : Int)) 2 = 0 := tmod_two_of_even _ ⟨xm, rfl⟩
    have hmod2 : Int.tmod (2 * (xM : Int) + 1) 2 = 1 := tmod_two_of_odd _ ⟨xM, rfl⟩
    simp only [hmod1, hmod2]
    norm_num
  · intro y x hy hx hbd
    have := f5 y x hy hx hbd
    rw [hem, heM, hecm, hecM] at this
    omega

theorem exists_bytediff_of_ne (w h : Nat) (hw0 : 0 < w) (hw : w % 2 = 0)
    (last next : List Nat)
    (hl : last.length = w / 2 * h) (hn : next.length = w / 2 * h) (hne : last ≠ next) :
    ∃ y x, y < h ∧ x < w / 2 ∧ ByteDiff last next (w / 2) y x := by
  by_contra hno
  push_neg at hno
  apply hne
  apply List.ext_getElem (by omega)
  intro i h1 h2
  have hs : 0 < w / 2 := by omega
  have hy : i / (w / 2) < h := by
    rw [Nat.div_lt_iff_lt_mul hs]
    have : w / 2 * h = h * (w / 2) := Nat.mul_comm _ _
    omega
  have hx : i % (w / 2) < w / 2 := Nat.mod_lt _ hs
  have hnd := hno (i / (w / 2)) (i % (w / 2)) hy hx
  rw [ByteDiff, not_not] at hnd
  have hidx : i / (w / 2) * (w / 2) + i % (w / 2) = i := by
    rw [Nat.mul_comm]
    exact Nat.div_add_mod i (w / 2)
  rw [hidx] at hnd
  simp only [byteAt] at hnd
  rw [List.getD_eq_getElem last 0 h1, List.getD_eq_getElem next 0 h2] at hnd
  exact hnd

/-! ### C1 -/

/-- C1: calculateDiff reports no change (minCol > maxCol) iff the two backing
byte sequences are identical; when they differ it returns the minimal
byte-aligned bounding rectangle: minCol is even, maxCol is odd, minRow and
maxRow are differing rows, the boundary byte-columns minCol/2 and maxCol/2
contain a differing byte, and every differing byte lies inside the
rectangle (which also makes minRow/maxRow the first and last differing rows
and minCol/maxCol tight). -/
theorem calculateDiff_minimal_rectangle (w h : Nat) (hw : w % 2 = 0) (hw0 : 0 < w)
    (last next : List Nat) (hl : last.length = w / 2 * h) (hn : next.length = w / 2 * h) :
    (((calculateDiff w h last next).maxCol < (calculateDiff w h last next).minCol)
        ↔ last = next) ∧
    (last ≠ next →
      (∃ i : Nat, (calculateDiff w h last next).minCol = 2 * (i : Int) ∧ i < w / 2 ∧
        ∃ y, y < h ∧ ByteDiff last next (w / 2) y i) ∧
      (∃ i : Nat, (calculateDiff w h last next).maxCol = 2 * (i : Int) + 1 ∧ i < w / 2 ∧
        ∃ y, y < h ∧ ByteDiff last next (w / 2) y i) ∧
      (∃ y : Nat, (calculateDiff w h last next).minRow = (y : Int) ∧ y < h ∧
        ∃ x, x < w / 2 ∧ ByteDiff last next (w / 2) y x) ∧
      (∃ y : Nat, (calculateDiff w h last next).maxRow = (y : Int) ∧ y < h ∧
        ∃ x, x < w / 2 ∧ ByteDiff last next (w / 2) y x) ∧
      (∀ y x : Nat, y < h → x < w / 2 → ByteDiff last next (w / 2) y x →
        (calculateDiff w h last next).minRow ≤ (y : Int) ∧
        (y : Int) ≤ (calculateDiff w h last next).maxRow ∧
        (calculateDiff w h last next).minCol ≤ 2 * (x : Int) ∧
        2 * (x : Int) + 1 ≤ (calculateDiff w h last next).maxCol)) := by
  have hlast : h * (w / 2) ≤ last.length := by
    rw [hl]
    exact Nat.le_of_eq (Nat.mul_comm h (w / 2))
  have hnext : h * (w / 2) ≤ next.length := by
    rw [hn]
    exact Nat.le_of_eq (Nat.mul_comm h (w / 2))
  by_cases heq : last = next
  · have hno : ∀ y x, y < h → x < w / 2 → ¬ByteDiff last next (w / 2) y x := by
      intro y x _ _ hbd
      rw [heq] at hbd
      exact hbd rfl
    have hcd := calculateDiff_of_no_diff w h hw last next hlast hnext hno
    rw [hcd]
    refine ⟨⟨fun _ => heq, fun _ => ?_⟩, fun hne => absurd heq hne⟩
    show (-1 : Int) < (w : Int)
    omega
  · have hex := exists_bytediff_of_ne w h hw0 hw last next hl hn heq
    obtain ⟨xm, xM, ym, yM, hcd, hxm, hxM, hym, hyM, hbm, hbM, hrm, hrM, hall⟩ :=
      calculateDiff_of_diff w h hw hw0 last next hlast hnext hex
    rw [hcd]
    constructor
    · constructor
      · intro hlt
        exfalso
        obtain ⟨y0, x0, hy0, hx0, hbd0⟩ := hex
        have := hall y0 x0 hy0 hx0 hbd0
        dsimp only at hlt
        omega
      · intro he
        exact absurd he heq
    · intro _
      refine ⟨⟨xm, rfl, hxm, hbm⟩, ⟨xM, rfl, hxM, hbM⟩, ⟨ym, rfl, hym, hrm⟩,
        ⟨yM, rfl, hyM, hrM⟩, ?_⟩
      intro y x hy hx hbd
      exact hall y x hy hx hbd

/-- C1 witness at a concrete instance (the spec test vector: a 4 by 2 frame
where row 0 changed). -/
theorem calculateDiff_minimal_rectangle_witness :
    (4 % 2 = 0 ∧ 0 < 4 ∧ ([0x00, 0x00, 0x00, 0x00] : List Nat).length = 4 / 2 * 2 ∧
        ([0xAB, 0xCD, 0x00, 0x00] : List Nat).length = 4 / 2 * 2) ∧
    ((((calculateDiff 4 2 [0x00, 0x00, 0x00, 0x00] [0xAB, 0xCD, 0x00, 0x00]).maxCol
        < (calculateDiff 4 2 [0x00, 0x00, 0x00, 0x00] [0xAB, 0xCD, 0x00, 0x00]).minCol)
        ↔ ([0x00, 0x00, 0x00, 0x00] : List Nat) = [0xAB, 0xCD, 0x00, 0x00]) ∧
      (([0x00, 0x00, 0x00, 0x00] : List Nat) ≠ [0xAB, 0xCD, 0x00, 0x00] →
        (∃ i : Nat,
          (calculateDiff 4 2 [0x00, 0x00, 0x00, 0x00] [0xAB, 0xCD, 0x00, 0x00]).minCol
            = 2 * (i : Int) ∧ i < 4 / 2 ∧
          ∃ y, y < 2 ∧ ByteDiff [0x00, 0x00, 0x00, 0x00] [0xAB, 0xCD, 0x00, 0x00] (4 / 2) y i) ∧
        (∃ i : Nat,
          (calculateDiff 4 2 [0x00, 0x00, 0x00, 0x00] [0xAB, 0xCD, 0x00, 0x00]).maxCol
            = 2 * (i : Int) + 1 ∧ i < 4 / 2 ∧
          ∃ y, y < 2 ∧ ByteDiff [0x00, 0x00, 0x00, 0x00] [0xAB, 0xCD, 0x00, 0x00] (4 / 2) y i) ∧
        (∃ y : Nat,
          (calculateDiff 4 2 [0x00, 0x00, 0x00, 0x00] [0xAB, 0xCD, 0x00, 0x00]).minRow
            = (y : Int) ∧ y < 2 ∧
          ∃ x, x < 4 / 2 ∧ ByteDiff [0x00, 0x00, 0x00, 0x00] [0xAB, 0xCD, 0x00, 0x00] (4 / 2) y x) ∧
        (∃ y : Nat,
          (calculateDiff 4 2 [0x00, 0x00, 0x00, 0x00] [0xAB, 0xCD, 0x00, 0x00]).maxRow
            = (y : Int) ∧ y < 2 ∧
          ∃ x, x < 4 / 2 ∧ ByteDiff [0x00, 0x00, 0x00, 0x00] [0xAB, 0xCD, 0x00, 0x00] (4 / 2) y x) ∧
        (∀ y x : Nat, y < 2 → x < 4 / 2 →
          ByteDiff [0x00, 0x00, 0x00, 0x00] [0xAB, 0xCD, 0x00, 0x00] (4 / 2) y x →
          (calculateDiff 4 2 [0x00, 0x00, 0x00, 0x00] [0xAB, 0xCD, 0x00, 0x00]).minRow
            ≤ (y : Int) ∧
          (y : Int) ≤ (calculateDiff 4 2 [0x00, 0x00, 0x00, 0x00] [0xAB, 0xCD, 0x00, 0x00]).maxRow ∧
          (calculateDiff 4 2 [0x00, 0x00, 0x00, 0x00] [0xAB, 0xCD, 0x00, 0x00]).minCol
            ≤ 2 * (x : Int) ∧
          2 * (x : Int) + 1
            ≤ (calculateDiff 4 2 [0x00, 0x00, 0x00, 0x00] [0xAB, 0xCD, 0x00, 0x00]).maxCol))) :=
  ⟨⟨rfl, by decide, rfl, rfl⟩,
    calculateDiff_minimal_rectangle 4 2 rfl (by decide)
      [0x00, 0x00, 0x00, 0x00] [0xAB, 0xCD, 0x00, 0x00] rfl rfl⟩

/-! ### Device session: Dev, transport model and operations (ssd1322.go) -/

/-- Go copy(dst, src): overwrite the first min(len dst, len src) elements of
dst with those of src. -/
def listCopy (dst src : List Nat) : List Nat :=
  src.take (min dst.length src.length) ++ dst.drop (min dst.length src.length)

/-- Go copy(dst[idx:], src), as a pure function on dst. In every call of the
driver idx ≤ dst.length holds. -/
def copyAt (dst : List Nat) (idx : Nat) (src : List Nat) : List Nat :=
  dst.take idx ++ listCopy (dst.drop idx) src

/-- Errors of the embedded driver. panicked stands for a Go runtime panic
(out-of-range slice or nil dereference), which is not a returned error. -/
inductive DevErr where
  | halted
  | invalidBufferSize
  | transport
  | panicked
deriving DecidableEq, Repr

instance {e a : Type} [DecidableEq e] [DecidableEq a] : DecidableEq (Except e a) := fun u v =>
  match u, v with
  | .error x, .error y => decidable_of_iff (x = y) (by simp)
  | .error _, .ok _ => .isFalse (by simp)
  | .ok _, .error _ => .isFalse (by simp)
  | .ok x, .ok y => decidable_of_iff (x = y) (by simp)

/-- Go slice expression l[a:b]: defined when 0 ≤ a ≤ b ≤ len l, a runtime
panic otherwise. -/
def goslice (l : List Nat) (a b : Int) : Except DevErr (List Nat) :=
  if 0 ≤ a ∧ a ≤ b ∧ b ≤ (l.length : Int) then
    .ok ((l.drop a.toNat).take (b - a).toNat)
  else .error .panicked

/-- One transport operation: a command burst or a data burst. -/
inductive Ev where
  | cmds : List Nat → Ev
  | data : List Nat → Ev
deriving DecidableEq, Repr

/-- Success or failure of the n-th transport operation of a session. -/
abbrev Oracle := Nat → Bool

/-- ssd1322 sendCommands: one transport operation (DC low, then Tx). -/
def sendCommands (oracle : Oracle) (tr : List Ev) (cs : List Nat) : List Ev × Bool :=
  (tr ++ [Ev.cmds cs], oracle tr.length)

/-- ssd1322 sendData: one transport operation (DC high, then Tx). -/
def sendData (oracle : Oracle) (tr : List Ev) (ds : List Nat) : List Ev × Bool :=
  (tr ++ [Ev.data ds], oracle tr.length)

/-- Go byte(v) conversion of an int: the low 8 bits. -/
def toByte (v : Int) : Nat := (v % 256).toNat

/-- ssd1322 Dev: the device handle (communication pins are subsumed by the
transport oracle). -/
structure Dev where
  rect : Rectangle
  columnOffset : Int
  buffer : List Nat
  next : Option HorizontalNibble
  lastDm : HorizontalNibble
  halted : Bool
deriving DecidableEq, Repr

/-- ssd1322 writeRect: set the addressing window (one command burst), then
stream the pixel data (one data burst). -/
def writeRect (d : Dev) (oracle : Oracle) (tr : List Ev) (x y width height : Int)
    (pixels : List Nat) : List Ev × Except DevErr Unit :=
  let colStart := toByte ((x + d.columnOffset).tdiv 2)
  let colEnd := toByte ((x + width - 1 + d.columnOffset).tdiv 2)
  let commands : List Nat :=
    [0x15, colStart, colEnd, 0x75, toByte y, toByte (y + height - 1), 0x5C]
  let r1 := sendCommands oracle tr commands
  if r1.2 then
    let r2 := sendData oracle r1.1 pixels
    if r2.2 then (r2.1, .ok ()) else (r2.1, .error .transport)
  else (r1.1, .error .transport)

/-- ssd1322 writeFullFrame. -/
def writeFullFrame (d : Dev) (oracle : Oracle) (tr : List Ev) (pixels : List Nat) :
    List Ev × Except DevErr Unit :=
  writeRect d oracle tr 0 0 d.rect.Dx d.rect.Dy pixels

/-- ssd1322 Dev.Write: raw full-frame write. -/
def Dev.Write (d : Dev) (oracle : Oracle) (tr : List Ev) (pixels : List Nat) :
    Dev × List Ev × Except DevErr Nat :=
  if d.halted then (d, tr, .error .halted)
  else if pixels.length ≠ d.buffer.length then (d, tr, .error .invalidBufferSize)
  else
    let r := writeFullFrame d oracle tr pixels
    match r.2 with
    | .error e => (d, r.1, .error e)
    | .ok _ => ({ d with buffer := listCopy d.buffer pixels }, r.1, .ok pixels.length)

/-- The integers lo, lo+1, ..., hi-1. -/
def intRange (lo hi : Int) : List Int :=
  (List.range (hi - lo).toNat).map (fun (i : Nat) => lo + (i : Int))

/-- One iteration of the extractRegion copy loop: slice the row, copy it at
the current output index, advance the index by byteWidth. -/
def extractStep (pix : List Nat) (stride minColHalf byteWidth : Int)
    (acc : Except DevErr (List Nat × Int)) (y : Int) : Except DevErr (List Nat × Int) :=
  match acc with
  | .error e => .error e
  | .ok rs =>
    match goslice pix (y * stride + minColHalf) (y * stride + minColHalf + byteWidth) with
    | .error e => .error e
    | .ok slice => .ok (copyAt rs.1 rs.2.toNat slice, rs.2 + byteWidth)

/-- ssd1322 Dev.extractRegion. It reads d.next.Pix with no bounds check of
its own: Go nil-panics when next is nil, panics when a row slice leaves the
backing buffer, and panics on a negative make size. -/
def Dev.extractRegion (d : Dev) (minCol maxCol minRow maxRow : Int) :
    Except DevErr (List Nat) :=
  match d.next with
  | none => .error .panicked
  | some nx =>
    let width := maxCol - minCol + 1
    let height := maxRow - minRow + 1
    let stride := d.rect.Dx.tdiv 2
    let byteWidth := width.tdiv 2
    if byteWidth * height < 0 then .error .panicked
    else
      match (intRange minRow (maxRow + 1)).foldl
          (extractStep nx.Pix stride (minCol.tdiv 2) byteWidth)
          (.ok (List.replicate (byteWidth * height).toNat 0, 0)) with
      | .error e => .error e
      | .ok rs => .ok rs.1

/-- Shallow model of image.Image: either a HorizontalNibble (the type the
fast path of Draw tests for) or a generic image given by its bounds and its
At function. -/
inductive Image where
  | horizontalNibble : HorizontalNibble → Image
  | generic : Rectangle → (Int → Int → Color) → Image

def Image.Bounds : Image → Rectangle
  | .horizontalNibble hn => hn.Rect
  | .generic b _ => b

def Image.At : Image → Int → Int → Color
  | .horizontalNibble hn, x, y => .gray4 (hn.Gray4At x y)
  | .generic _ f, x, y => f x y

/-- image/draw Draw with op = Src and nil mask: clip the rectangle against
the destination bounds and the translated source bounds, then copy pixel by
pixel through dst.Set and src.At. -/
def drawDraw (dst : HorizontalNibble) (r : Rectangle) (src : Image) (sp : Point) :
    HorizontalNibble :=
  let origX := r.minX
  let origY := r.minY
  let r1 := r.Intersect dst.Rect
  let r2 := r1.Intersect (src.Bounds.Add ⟨origX - sp.x, origY - sp.y⟩)
  let spx := sp.x + (r2.minX - origX)
  let spy := sp.y + (r2.minY - origY)
  (intRange r2.minY r2.maxY).foldl (fun p y =>
    (intRange r2.minX r2.maxX).foldl (fun p x =>
      p.Set x y (src.At (spx + (x - r2.minX)) (spy + (y - r2.minY)))) p) dst

/-- The differential-update (slow) path of Dev.Draw, after halt check,
clipping and the fast-path test: lazy double-buffer initialisation, render,
diff, extract, transmit, and commit on success. -/
def Dev.drawSlow (d : Dev) (oracle : Oracle) (tr : List Ev) (dst : Rectangle)
    (src : Image) (sp : Point) : Dev × List Ev × Except DevErr Unit :=
  let init : HorizontalNibble × HorizontalNibble :=
    match d.next with
    | none =>
      let nx := NewHorizontalNibble d.rect
      (nx, ⟨listCopy (List.replicate d.buffer.length 0) d.buffer, nx.Stride, d.rect⟩)
    | some nx => (nx, d.lastDm)
  let next1 := drawDraw init.1 dst src sp
  let dc := calculateDiff d.rect.Dx.toNat d.rect.Dy.toNat init.2.Pix next1.Pix
  let d1 := { d with next := some next1, lastDm := init.2 }
  if dc.minCol > dc.maxCol then (d1, tr, .ok ())
  else
    match d1.extractRegion dc.minCol dc.maxCol dc.minRow dc.maxRow with
    | .error e => (d1, tr, .error e)
    | .ok changedData =>
      let r := writeRect d1 oracle tr dc.minCol dc.minRow (dc.maxCol - dc.minCol + 1)
        (dc.maxRow - dc.minRow + 1) changedData
      match r.2 with
      | .error e => (d1, r.1, .error e)
      | .ok _ =>
        ({ d1 with
            buffer := listCopy d1.buffer next1.Pix,
            lastDm := { Pix := listCopy init.2.Pix next1.Pix, Stride := init.2.Stride,
                        Rect := init.2.Rect } }, r.1, .ok ())

/-- ssd1322 Dev.Draw: halt check, clip to display bounds, full-frame fast
path for an aligned HorizontalNibble source, differential path otherwise. -/
def Dev.Draw (d : Dev) (oracle : Oracle) (tr : List Ev) (dst0 : Rectangle) (src : Image)
    (sp : Point) : Dev × List Ev × Except DevErr Unit :=
  if d.halted then (d, tr, .error .halted)
  else
    let dst := dst0.Intersect d.rect
    if dst.Empty then (d, tr, .ok ())
    else
      match src with
      | .horizontalNibble hn =>
        if dst == d.rect && sp == (⟨0, 0⟩ : Point) && hn.Rect == d.rect then
          let r := writeFullFrame d oracle tr hn.Pix
          (d, r.1, r.2)
        else d.drawSlow oracle tr dst src sp
      | .generic _ _ => d.drawSlow oracle tr dst src sp

/-- ssd1322 Dev.Halt: set the halted flag unconditionally, then send the
display-off command. -/
def Dev.Halt (d : Dev) (oracle : Oracle) (tr : List Ev) :
    Dev × List Ev × Except DevErr Unit :=
  let d1 := { d with halted := true }
  let r := sendCommands oracle tr [0xAE]
  if r.2 then (d1, r.1, .ok ()) else (d1, r.1, .error .transport)

/-! ### C7 -/

theorem tdiv_natCast (m n : Nat) : ((m : Nat) : Int).tdiv ((n : Nat) : Int) = ((m / n : Nat) : Int) :=
  rfl

/-- C7: the addressing parameters sent before the payload are
columnStart = (minCol + centeringOffset)/2, columnEnd = (maxCol +
centeringOffset)/2, rowStart = minRow, rowEnd = maxRow, as the 0x15/0x75
command burst, followed by the payload data burst. -/
theorem writeRect_addressing (d : Dev) (oracle : Oracle) (tr : List Ev)
    (off minCol maxCol minRow maxRow : Nat) (pixels : List Nat)
    (hoff : d.columnOffset = (off : Int))
    (hcS : (minCol + off) / 2 < 256) (hcE : (maxCol + off) / 2 < 256)
    (hrS : minRow < 256) (hrE : maxRow < 256) :
    writeRect d oracle tr minCol minRow ((maxCol : Int) - (minCol : Int) + 1)
        ((maxRow : Int) - (minRow : Int) + 1) pixels
      = (if oracle tr.length then
          (tr ++ [Ev.cmds [0x15, (minCol + off) / 2, (maxCol + off) / 2, 0x75,
                    minRow, maxRow, 0x5C], Ev.data pixels],
            if oracle (tr.length + 1) then Except.ok () else Except.error DevErr.transport)
        else
          (tr ++ [Ev.cmds [0x15, (minCol + off) / 2, (maxCol + off) / 2, 0x75,
                    minRow, maxRow, 0x5C]],
            Except.error DevErr.transport)) := by
  have e1 : (minCol : Int) + d.columnOffset = ((minCol + off : Nat) : Int) := by
    rw [hoff]
    push_cast
    ring
  have e2 : (minCol : Int) + ((maxCol : Int) - (minCol : Int) + 1) - 1 + d.columnOffset
      = ((maxCol + off : Nat) : Int) := by
    rw [hoff]
    push_cast
    ring
  have e3 : (minRow : Int) + ((maxRow : Int) - (minRow : Int) + 1) - 1 = ((maxRow : Nat) : Int) := by
    ring
  have b1 : toByte (((minCol : Int) + d.columnOffset).tdiv 2) = (minCol + off) / 2 := by
    rw [e1]
    show ((((minCol + off : Nat) : Int)).tdiv ((2 : Nat) : Int) % 256).toNat = _
    rw [tdiv_natCast]
    omega
  have b2 : toByte (((minCol : Int) + ((maxCol : Int) - (minCol : Int) + 1) - 1
      + d.columnOffset).tdiv 2) = (maxCol + off) / 2 := by
    rw [e2]
    show ((((maxCol + off : Nat) : Int)).tdiv ((2 : Nat) : Int) % 256).toNat = _
    rw [tdiv_natCast]
    omega
  have b3 : toByte (minRow : Int) = minRow := by
    rw [toByte]
    omega
  have b4 : toByte ((minRow : Int) + ((maxRow : Int) - (minRow : Int) + 1) - 1) = maxRow := by
    rw [e3, toByte]
    omega
  rw [writeRect]
  simp only [b1, b2, b3, b4, sendCommands, sendData]
  by_cases h1 : oracle tr.length
  · simp only [h1, if_true, List.length_append, List.length_cons, List.length_nil,
      List.append_assoc, List.cons_append, List.nil_append]
    by_cases h2 : oracle (tr.length + 1)
    · simp [h2]
    · simp [h2]
  · simp [h1]

/-- C7 witness: centeringOffset 112 (width 256) and the full row 0..255 give
columnStart 56 and columnEnd 183. -/
theorem writeRect_addressing_witness :
    writeRect
        ({ rect := mkRect 0 0 256 64, columnOffset := 112, buffer := [], next := none,
           lastDm := ⟨[], 0, mkRect 0 0 0 0⟩, halted := false } : Dev)
        (fun _ => true) [] (0 : Nat) (0 : Nat) ((255 : Nat) - (0 : Nat) + 1)
        ((63 : Nat) - (0 : Nat) + 1) []
      = ([Ev.cmds [0x15, 56, 183, 0x75, 0, 63, 0x5C], Ev.data []], Except.ok ()) := by
  have h := writeRect_addressing
    ({ rect := mkRect 0 0 256 64, columnOffset := 112, buffer := [], next := none,
       lastDm := ⟨[], 0, mkRect 0 0 0 0⟩, halted := false } : Dev)
    (fun _ => true) [] 112 0 255 0 63 [] rfl (by decide) (by decide) (by decide) (by decide)
  exact h.trans (by decide)


/-! ### C9 -/

/-- C9: Halt sets the halted flag unconditionally (even if already halted);
once halted, Draw and Write fail with the halted error, and Write with a
wrong-size buffer fails with the size-mismatch error; in those failure cases
no transport operation happens and the device state is unchanged. -/
theorem halt_state_machine :
    (∀ (d : Dev) (oracle : Oracle) (tr : List Ev), ((d.Halt oracle tr).1).halted = true) ∧
    (∀ (d : Dev) (oracle : Oracle) (tr : List Ev) (dst0 : Rectangle) (src : Image)
        (sp : Point), d.halted = true →
      d.Draw oracle tr dst0 src sp = (d, tr, Except.error DevErr.halted)) ∧
    (∀ (d : Dev) (oracle : Oracle) (tr : List Ev) (pixels : List Nat), d.halted = true →
      d.Write oracle tr pixels = (d, tr, Except.error DevErr.halted)) ∧
    (∀ (d : Dev) (oracle : Oracle) (tr : List Ev) (pixels : List Nat) (w h : Nat),
      d.halted = false → d.buffer.length = w * h / 2 → pixels.length ≠ w * h / 2 →
      d.Write oracle tr pixels = (d, tr, Except.error DevErr.invalidBufferSize)) := by
  refine ⟨?_, ?_, ?_, ?_⟩
  · intro d oracle tr
    simp only [Dev.Halt, sendCommands]
    split <;> rfl
  · intro d oracle tr dst0 src sp hh
    rw [Dev.Draw, if_pos hh]
  · intro d oracle tr pixels hh
    rw [Dev.Write, if_pos hh]
  · intro d oracle tr pixels w h hh hblen hsz
    rw [Dev.Write, if_neg (by rw [hh]; exact Bool.false_ne_true),
      if_pos (by rw [hblen]; exact hsz)]

/-- C9 witness at a concrete device. -/
theorem halt_state_machine_witness :
    ((({ rect := mkRect 0 0 2 1, columnOffset := 239, buffer := [0], next := none,
         lastDm := ⟨[], 0, mkRect 0 0 0 0⟩, halted := true } : Dev).Halt
        (fun _ => true) []).1).halted = true ∧
    ({ rect := mkRect 0 0 2 1, columnOffset := 239, buffer := [0], next := none,
       lastDm := ⟨[], 0, mkRect 0 0 0 0⟩, halted := true } : Dev).Write
        (fun _ => true) [] [7]
      = ({ rect := mkRect 0 0 2 1, columnOffset := 239, buffer := [0], next := none,
           lastDm := ⟨[], 0, mkRect 0 0 0 0⟩, halted := true }, [],
          Except.error DevErr.halted) ∧
    ({ rect := mkRect 0 0 2 1, columnOffset := 239, buffer := [0], next := none,
       lastDm := ⟨[], 0, mkRect 0 0 0 0⟩, halted := false } : Dev).Write
        (fun _ => true) [] [7, 8]
      = ({ rect := mkRect 0 0 2 1, columnOffset := 239, buffer := [0], next := none,
           lastDm := ⟨[], 0, mkRect 0 0 0 0⟩, halted := false }, [],
          Except.error DevErr.invalidBufferSize) := by
  refine ⟨halt_state_machine.1 _ (fun _ => true) [], ?_, ?_⟩
  · exact halt_state_machine.2.2.1 _ (fun _ => true) [] [7] rfl
  · exact halt_state_machine.2.2.2 _ (fun _ => true) [] [7, 8] 2 1 rfl rfl (by decide)

/-! ### C10 -/

/-- C10: on a non-halted session, Draw with a destination rectangle whose
intersection with the display bounds is empty returns success immediately:
no transport operation, no state change. -/
theorem draw_empty_clip_noop (d : Dev) (oracle : Oracle) (tr : List Ev) (dst0 : Rectangle)
    (src : Image) (sp : Point) (hh : d.halted = false)
    (he : (dst0.Intersect d.rect).Empty = true) :
    d.Draw oracle tr dst0 src sp = (d, tr, Except.ok ()) := by
  rw [Dev.Draw, if_neg (by rw [hh]; exact Bool.false_ne_true)]
  simp only [he, if_true]

/-- C10 witness at a concrete device and disjoint rectangle. -/
theorem draw_empty_clip_noop_witness :
    (((mkRect 10 10 12 12).Intersect (mkRect 0 0 2 1)).Empty = true) ∧
    ({ rect := mkRect 0 0 2 1, columnOffset := 239, buffer := [0], next := none,
       lastDm := ⟨[], 0, mkRect 0 0 0 0⟩, halted := false } : Dev).Draw
        (fun _ => true) [] (mkRect 10 10 12 12)
        (.horizontalNibble ⟨[0xAB], 1, mkRect 0 0 2 1⟩) ⟨0, 0⟩
      = ({ rect := mkRect 0 0 2 1, columnOffset := 239, buffer := [0], next := none,
           lastDm := ⟨[], 0, mkRect 0 0 0 0⟩, halted := false }, [], Except.ok ()) :=
  ⟨by decide,
    draw_empty_clip_noop _ (fun _ => true) [] (mkRect 10 10 12 12)
      (.horizontalNibble ⟨[0xAB], 1, mkRect 0 0 2 1⟩) ⟨0, 0⟩ rfl (by decide)⟩

/-! ### C6 -/

/-- A concrete 8 by 2 device whose working buffer holds the spec example
bytes. -/
def sampleDev8x2 : Dev :=
  { rect := mkRect 0 0 8 2, columnOffset := 236,
    buffer := List.replicate 8 0,
    next := some ⟨[0x00, 0x11, 0x22, 0x33, 0x44, 0x55, 0x66, 0x77], 4, mkRect 0 0 8 2⟩,
    lastDm := ⟨List.replicate 8 0, 4, mkRect 0 0 8 2⟩, halted := false }

/-- C6 counterexample: the rectangle minCol=2, maxCol=9, minRow=maxRow=0 is
not contained in the 8 by 2 store bounds, yet extractRegion does not fail: it
performs no containment check and returns four bytes. -/
theorem extractRegion_uncontained_succeeds :
    (¬((0 : Int) ≤ 2 ∧ (9 : Int) < 8 ∧ (0 : Int) ≤ 0 ∧ (0 : Int) < 2)) ∧
    sampleDev8x2.extractRegion 2 9 0 0 = Except.ok [0x11, 0x22, 0x33, 0x44] := by
  constructor
  · intro hc
    omega
  · decide

/-- Modelled from the claim's words: for each row from minRow to maxRow, the
inclusive byte slice from byte-column minCol/2 to byte-column maxCol/2 of
that row, concatenated row-major. -/
def extractSpec (pix : List Nat) (stride minCol maxCol minRow maxRow : Nat) : List Nat :=
  (List.range (maxRow - minRow + 1)).foldl (fun acc k =>
    acc ++ rowSlice pix ((minRow + k) * stride + minCol / 2) (maxCol / 2 - minCol / 2 + 1)) []

theorem row_major_le (s h y r : Nat) (hy : y < h) (hr : r ≤ s) : y * s + r ≤ s * h := by
  have h1 : (y + 1) * s = y * s + s := by ring
  have h2 : (y + 1) * s ≤ h * s := Nat.mul_le_mul_right s hy
  have h3 : h * s = s * h := Nat.mul_comm h s
  omega

theorem intRange_zero (lo : Int) : intRange lo lo = [] := by
  simp [intRange]

theorem intRange_succ (lo : Int) (k : Nat) :
    intRange lo (lo + ((k : Nat) : Int) + 1) = intRange lo (lo + ((k : Nat) : Int)) ++ [lo + (k : Nat)] := by
  rw [intRange, intRange]
  have h1 : (lo + ((k : Nat) : Int) + 1 - lo).toNat = k + 1 := by omega
  have h2 : (lo + ((k : Nat) : Int) - lo).toNat = k := by omega
  rw [h1, h2, List.range_succ, List.map_append]
  rfl

theorem goslice_ok (l : List Nat) (a b : Nat) (h : a + b ≤ l.length) :
    goslice l ((a : Nat) : Int) (((a : Nat) : Int) + ((b : Nat) : Int)) =
      Except.ok (rowSlice l a b) := by
  rw [goslice, if_pos (by constructor <;> omega)]
  rw [rowSlice]
  have h1 : (((a : Nat) : Int)).toNat = a := by omega
  have h2 : (((a : Nat) : Int) + ((b : Nat) : Int) - ((a : Nat) : Int)).toNat = b := by omega
  rw [h1, h2]

theorem copyAt_append (A Z S : List Nat) (hS : S.length ≤ Z.length) :
    copyAt (A ++ Z) A.length S = A ++ (S ++ Z.drop S.length) := by
  rw [copyAt, List.take_left, List.drop_left, listCopy]
  have hmin : min Z.length S.length = S.length := by omega
  rw [hmin, List.take_length]

theorem extract_partial_length (pix : List Nat) (s A bw r0 : Nat) (k : Nat)
    (hrow : ∀ j, j < k → (r0 + j) * s + (A + bw) ≤ pix.length) :
    ((List.range k).foldl (fun acc j =>
        acc ++ rowSlice pix ((r0 + j) * s + A) bw) []).length = k * bw := by
  induction k with
  | zero => simp
  | succ n ih =>
    rw [List.range_succ, List.foldl_append, List.foldl_cons, List.foldl_nil,
      List.length_append]
    rw [ih (fun j hj => hrow j (by omega))]
    have hsl : (rowSlice pix ((r0 + n) * s + A) bw).length = bw :=
      rowSlice_length pix ((r0 + n) * s + A) bw (by have := hrow n (by omega); omega)
    rw [hsl]
    ring

theorem extract_loop_inv (pix : List Nat) (s A bw r0 cnt : Nat)
    (hrow : ∀ j, j < cnt → (r0 + j) * s + (A + bw) ≤ pix.length) :
    ∀ k, k ≤ cnt →
      (intRange (r0 : Int) ((r0 : Int) + (k : Nat))).foldl
          (extractStep pix (s : Int) (A : Int) (bw : Int))
          (Except.ok (List.replicate (bw * cnt) 0, 0))
        = Except.ok
            ((List.range k).foldl (fun acc j =>
                acc ++ rowSlice pix ((r0 + j) * s + A) bw) []
              ++ List.replicate (bw * (cnt - k)) 0,
             ((k * bw : Nat) : Int)) := by
  intro k
  induction k with
  | zero =>
    intro _
    have h0 : (r0 : Int) + ((0 : Nat) : Int) = (r0 : Int) := by omega
    rw [h0, intRange_zero]
    simp
  | succ n ih =>
    intro hk
    have hn : n ≤ cnt := by omega
    have hlt : n < cnt := by omega
    have hstep : (r0 : Int) + ((n + 1 : Nat) : Int) = (r0 : Int) + ((n : Nat) : Int) + 1 := by
      omega
    rw [hstep, intRange_succ, List.foldl_append, ih hn, List.foldl_cons, List.foldl_nil]
    rw [extractStep]
    have hcast : ((r0 : Int) + ((n : Nat) : Int)) * ((s : Nat) : Int) + ((A : Nat) : Int)
        = (((r0 + n) * s + A : Nat) : Int) := by
      push_cast
      ring
    rw [hcast]
    have hb := hrow n hlt
    rw [goslice_ok pix ((r0 + n) * s + A) bw (by omega)]
    dsimp only
    have hidx : (((n * bw : Nat) : Int)).toNat = n * bw := by omega
    rw [hidx]
    have hplen : ((List.range n).foldl (fun acc j =>
        acc ++ rowSlice pix ((r0 + j) * s + A) bw) []).length = n * bw :=
      extract_partial_length pix s A bw r0 n (fun j hj => hrow j (by omega))
    have hslen : (rowSlice pix ((r0 + n) * s + A) bw).length = bw :=
      rowSlice_length pix ((r0 + n) * s + A) bw (by omega)
    have hZlen : bw ≤ (List.replicate (bw * (cnt - n)) (0 : Nat)).length := by
      rw [List.length_replicate]
      have h1 : cnt - n = (cnt - (n + 1)) + 1 := by omega
      rw [h1, Nat.mul_add, Nat.mul_one]
      omega
    have hcopy := copyAt_append
      ((List.range n).foldl (fun acc j => acc ++ rowSlice pix ((r0 + j) * s + A) bw) [])
      (List.replicate (bw * (cnt - n)) 0)
      (rowSlice pix ((r0 + n) * s + A) bw)
      (by rw [hslen]; exact hZlen)
    rw [hplen] at hcopy
    rw [hcopy, hslen]
    have hdrop : (List.replicate (bw * (cnt - n)) (0 : Nat)).drop bw
        = List.replicate (bw * (cnt - (n + 1))) 0 := by
      rw [List.drop_replicate]
      congr 1
      have h1 : cnt - n = (cnt - (n + 1)) + 1 := by omega
      rw [h1, Nat.mul_add, Nat.mul_one]
      omega
    rw [hdrop]
    rw [List.range_succ, List.foldl_append, List.foldl_cons, List.foldl_nil]
    have hadd : ((n * bw : Nat) : Int) + ((bw : Nat) : Int) = (((n + 1) * bw : Nat) : Int) := by
      push_cast
      ring
    rw [List.append_assoc, hadd]

/-- C6 amended: extractRegion performs no containment check (an uncontained
rectangle is not reported as OutOfRange and may succeed); for a fully
contained rectangle satisfying the byte-alignment invariant (minCol even,
maxCol odd) it returns, row-major for each row from minRow to maxRow, the
inclusive byte slice from byte-column minCol/2 to maxCol/2 of that row. -/
theorem extractRegion_contained (w h : Nat) (hw : w % 2 = 0) (d : Dev)
    (nx : HorizontalNibble) (hrect : d.rect = mkRect 0 0 w h) (hnx : d.next = some nx)
    (hlen : nx.Pix.length = w / 2 * h)
    (minCol maxCol minRow maxRow : Nat)
    (hminE : minCol % 2 = 0) (hmaxO : maxCol % 2 = 1)
    (hmc : minCol ≤ maxCol) (hMc : maxCol < w) (hmr : minRow ≤ maxRow) (hMr : maxRow < h) :
    d.extractRegion minCol maxCol minRow maxRow
      = Except.ok (extractSpec nx.Pix (w / 2) minCol maxCol minRow maxRow) := by
  rw [Dev.extractRegion, hnx]
  have hst : d.rect.Dx.tdiv 2 = ((w / 2 : Nat) : Int) := by
    rw [hrect]
    show ((w : Int) - 0).tdiv 2 = _
    rw [sub_zero]
    exact tdiv_natCast w 2
  have hbw : (((maxCol : Nat) : Int) - ((minCol : Nat) : Int) + 1).tdiv 2
      = (((maxCol / 2 - minCol / 2 + 1 : Nat)) : Int) := by
    have h1 : ((maxCol : Nat) : Int) - ((minCol : Nat) : Int) + 1
        = (((maxCol - minCol + 1 : Nat)) : Int) := by omega
    have h2 : (((maxCol - minCol + 1 : Nat)) : Int).tdiv 2
        = ((((maxCol - minCol + 1) / 2 : Nat)) : Int) := tdiv_natCast _ 2
    rw [h1, h2]
    have h3 : (maxCol - minCol + 1) / 2 = maxCol / 2 - minCol / 2 + 1 := by omega
    rw [h3]
  have hmch : ((minCol : Nat) : Int).tdiv 2 = ((minCol / 2 : Nat) : Int) :=
    tdiv_natCast minCol 2
  dsimp only
  rw [hst, hbw, hmch]
  have hpos : ¬((((maxCol / 2 - minCol / 2 + 1 : Nat)) : Int)
      * (((maxRow : Nat) : Int) - ((minRow : Nat) : Int) + 1) < 0) := by
    have h1 : (0 : Int) ≤ (((maxCol / 2 - minCol / 2 + 1 : Nat)) : Int) := by omega
    have h2 : (0 : Int) ≤ ((maxRow : Nat) : Int) - ((minRow : Nat) : Int) + 1 := by omega
    have := mul_nonneg h1 h2
    omega
  rw [if_neg hpos]
  set bw := maxCol / 2 - minCol / 2 + 1 with hbwdef
  set cnt := maxRow - minRow + 1 with hcntdef
  have hcast1 : ((maxRow : Nat) : Int) + 1 = ((minRow : Nat) : Int) + ((cnt : Nat) : Int) := by
    omega
  have hcast2 : (((bw : Nat) : Int) * (((maxRow : Nat) : Int) - ((minRow : Nat) : Int) + 1)).toNat
      = bw * cnt := by
    have h1 : ((maxRow : Nat) : Int) - ((minRow : Nat) : Int) + 1 = ((cnt : Nat) : Int) := by
      omega
    rw [h1]
    have h2 : ((bw : Nat) : Int) * ((cnt : Nat) : Int) = ((bw * cnt : Nat) : Int) := by
      push_cast
      ring
    rw [h2]
    omega
  rw [hcast1, hcast2]
  have hrow : ∀ j, j < cnt → (minRow + j) * (w / 2) + (minCol / 2 + bw) ≤ nx.Pix.length := by
    intro j hj
    rw [hlen]
    have hyj : minRow + j < h := by omega
    have hrle : minCol / 2 + bw ≤ w / 2 := by omega
    exact row_major_le (w / 2) h (minRow + j) (minCol / 2 + bw) hyj hrle
  have hinv := extract_loop_inv nx.Pix (w / 2) (minCol / 2) bw minRow cnt hrow cnt (le_refl cnt)
  rw [hinv]
  have hz : bw * (cnt - cnt) = 0 := by
    rw [Nat.sub_self, Nat.mul_zero]
  rw [hz]
  simp only [List.replicate_zero, List.append_nil]
  rw [extractSpec]

/-- C6 amended-claim witness: the spec example, rectangle (2,5,0,0) on the
8 by 2 store, returns bytes 0x11, 0x22. -/
theorem extractRegion_contained_witness :
    sampleDev8x2.extractRegion 2 5 0 0 = Except.ok [0x11, 0x22] := by
  have h := extractRegion_contained 8 2 rfl sampleDev8x2
    ⟨[0x00, 0x11, 0x22, 0x33, 0x44, 0x55, 0x66, 0x77], 4, mkRect 0 0 8 2⟩ rfl rfl rfl
    2 5 0 0 rfl rfl (by decide) (by decide) (by decide) (by decide)
  exact h.trans (by decide)

/-! ### C3 -/

/-- A concrete 2 by 1 device with a zero committed buffer. -/
def sampleDev2x1 : Dev :=
  { rect := mkRect 0 0 2 1, columnOffset := 239, buffer := [0x00], next := none,
    lastDm := ⟨[], 0, mkRect 0 0 0 0⟩, halted := false }

/-- C3 (code-bug evidence at the failing input): on the full-frame fast path
of Draw, the transport send succeeds (the candidate bytes are streamed and
success is returned), yet the committed buffer is not replaced by a copy of
the candidate: it still holds 0x00, not 0xAB. Dev.Write at the same input
does copy the candidate into the committed buffer. -/
theorem draw_fast_path_no_commit :
    (sampleDev2x1.Draw (fun _ => true) [] (mkRect 0 0 2 1)
        (.horizontalNibble ⟨[0xAB], 1, mkRect 0 0 2 1⟩) ⟨0, 0⟩).2.2 = Except.ok () ∧
    (sampleDev2x1.Draw (fun _ => true) [] (mkRect 0 0 2 1)
        (.horizontalNibble ⟨[0xAB], 1, mkRect 0 0 2 1⟩) ⟨0, 0⟩).2.1
      = [Ev.cmds [0x15, 119, 120, 0x75, 0, 0, 0x5C], Ev.data [0xAB]] ∧
    (sampleDev2x1.Draw (fun _ => true) [] (mkRect 0 0 2 1)
        (.horizontalNibble ⟨[0xAB], 1, mkRect 0 0 2 1⟩) ⟨0, 0⟩).1.buffer = [0x00] ∧
    ¬((sampleDev2x1.Draw (fun _ => true) [] (mkRect 0 0 2 1)
        (.horizontalNibble ⟨[0xAB], 1, mkRect 0 0 2 1⟩) ⟨0, 0⟩).1.buffer = [0xAB]) ∧
    (sampleDev2x1.Write (fun _ => true) [] [0xAB]).1.buffer = [0xAB] := by
  refine ⟨?_, ?_, ?_, ?_, ?_⟩ <;> decide

/-! ### C2 -/

/-- A concrete 2 by 1 device whose committed buffer already shows 0xAB. -/
def sampleDev2x1AB : Dev :=
  { rect := mkRect 0 0 2 1, columnOffset := 239, buffer := [0xAB], next := none,
    lastDm := ⟨[], 0, mkRect 0 0 0 0⟩, halted := false }

/-- C2 counterexample: a candidate frame byte-identical to the committed
frame, supplied as a full-size HorizontalNibble at the origin, takes the
full-frame fast path and performs transport operations (an addressing
command burst and a full-frame data burst), not zero transport calls. -/
theorem draw_identical_fast_path_transport :
    (sampleDev2x1AB.Draw (fun _ => true) [] (mkRect 0 0 2 1)
        (.horizontalNibble ⟨[0xAB], 1, mkRect 0 0 2 1⟩) ⟨0, 0⟩).2.1
      = [Ev.cmds [0x15, 119, 120, 0x75, 0, 0, 0x5C], Ev.data [0xAB]] ∧
    ¬((sampleDev2x1AB.Draw (fun _ => true) [] (mkRect 0 0 2 1)
        (.horizontalNibble ⟨[0xAB], 1, mkRect 0 0 2 1⟩) ⟨0, 0⟩).2.1 = []) := by
  refine ⟨?_, ?_⟩ <;> decide

/-! #### Rendering through image/draw: per-pixel Set loops -/

theorem nibLowOrHigh : ∀ c < 16, ∀ u < 16, (c ||| (u <<< 4)) = 16 * u + c := by decide

theorem nibHighMask : ∀ u < 16, ∀ v < 16, (16 * u + v) &&& 0xF0 = 16 * u := by decide

theorem nibHighOrLow : ∀ u < 16, ∀ v < 16, ((16 * u) ||| v) = 16 * u + v := by decide

theorem nibRecompose : ∀ b < 256, 16 * ((b >>> 4) &&& 0x0F) + (b &&& 0x0F) = b := by decide

theorem getD_set_same (l : List Nat) (n a : Nat) (h : n < l.length) :
    (l.set n a).getD n 0 = a := by
  rw [List.getD_eq_getElem _ 0 (by simpa using h)]
  exact List.getElem_set_self _

theorem getD_set_other (l : List Nat) (n j a : Nat) (h : n ≠ j) :
    (l.set n a).getD j 0 = l.getD j 0 := by
  by_cases hj : j < l.length
  · rw [List.getD_eq_getElem _ 0 (by simpa using hj), List.getD_eq_getElem _ 0 hj]
    exact List.getElem_set_ne h _
  · rw [List.getD_eq_getElem?_getD, List.getD_eq_getElem?_getD,
      List.getElem?_eq_none (by simp; omega), List.getElem?_eq_none (by omega)]

theorem set_shape (p : HorizontalNibble) (x y : Int) (c : Color) :
    (p.Set x y c).Rect = p.Rect ∧ (p.Set x y c).Stride = p.Stride ∧
    (p.Set x y c).Pix.length = p.Pix.length := by
  rw [HorizontalNibble.Set]
  split
  · exact ⟨rfl, rfl, List.length_set _ _ _⟩
  · exact ⟨rfl, rfl, rfl⟩

theorem set_eval (w h : Nat) (p : HorizontalNibble) (hr : p.Rect = mkRect 0 0 w h)
    (hs : p.Stride = w / 2) (x y : Nat) (hx : x < w) (hy : y < h) (c : Color) :
    (p.Set x y c).Pix = p.Pix.set (y * (w / 2) + x / 2)
      ((p.Pix.getD (y * (w / 2) + x / 2) 0
          &&& (0xFF ^^^ (0x0F <<< (if x % 2 = 0 then 4 else 0))))
        ||| (((toGray4 c).Y &&& 0x0F) <<< (if x % 2 = 0 then 4 else 0))) := by
  have hin := pix_in_true w h p hr x y hx hy
  have hoff := pixOffset_eval w h p hr hs x y
  rw [HorizontalNibble.Set, if_pos hin]
  simp only [hoff]

theorem row_render (w h y : Nat) (hw : w % 2 = 0) (hy : y < h) (g : Nat → Color) :
    ∀ m, m ≤ w / 2 → ∀ p : HorizontalNibble,
      p.Rect = mkRect 0 0 w h → p.Stride = w / 2 → p.Pix.length = w / 2 * h →
      (((List.range (2 * m)).foldl
          (fun q x => q.Set (x : Int) (y : Int) (g x)) p).Rect = p.Rect ∧
       ((List.range (2 * m)).foldl
          (fun q x => q.Set (x : Int) (y : Int) (g x)) p).Stride = p.Stride ∧
       ((List.range (2 * m)).foldl
          (fun q x => q.Set (x : Int) (y : Int) (g x)) p).Pix.length = p.Pix.length ∧
       (∀ i, i < m →
         ((List.range (2 * m)).foldl
            (fun q x => q.Set (x : Int) (y : Int) (g x)) p).Pix.getD (y * (w / 2) + i) 0
           = 16 * ((toGray4 (g (2 * i))).Y &&& 0x0F)
              + ((toGray4 (g (2 * i + 1))).Y &&& 0x0F)) ∧
       (∀ j, j < y * (w / 2) ∨ y * (w / 2) + m ≤ j →
         ((List.range (2 * m)).foldl
            (fun q x => q.Set (x : Int) (y : Int) (g x)) p).Pix.getD j 0
           = p.Pix.getD j 0)) := by
  intro m
  induction m with
  | zero =>
    intro _ p h1 h2 h3
    simp
  | succ n ih =>
    intro hm p h1 h2 h3
    obtain ⟨q1, q2, q3, q4, q5⟩ := ih (by omega) p h1 h2 h3
    have hrange : 2 * (n + 1) = (2 * n) + 1 + 1 := by ring
    rw [hrange, List.range_succ, List.range_succ, List.foldl_append, List.foldl_append,
      List.foldl_cons, List.foldl_nil, List.foldl_cons, List.foldl_nil]
    set q := (List.range (2 * n)).foldl (fun q x => q.Set (x : Int) (y : Int) (g x)) p
      with hqdef
    have hq1 : q.Rect = mkRect 0 0 w h := by rw [q1, h1]
    have hq2 : q.Stride = w / 2 := by rw [q2, h2]
    have hq3 : q.Pix.length = w / 2 * h := by rw [q3, h3]
    have hx1 : 2 * n < w := by omega
    have hx2 : 2 * n + 1 < w := by omega
    have hidx : y * (w / 2) + n < q.Pix.length := by
      rw [hq3]
      exact row_major_lt (w / 2) h y n hy (by omega)
    have hdiv1 : 2 * n / 2 = n := by omega
    have hmod1 : 2 * n % 2 = 0 := by omega
    have hdiv2 : (2 * n + 1) / 2 = n := by omega
    have hmod2 : (2 * n + 1) % 2 = 1 := by omega
    have hif1 : (if 2 * n % 2 = 0 then 4 else 0) = 4 := by
      rw [hmod1]
      decide
    have hif2 : (if (2 * n + 1) % 2 = 0 then 4 else 0) = 0 := by
      rw [hmod2]
      decide
    have hset1 := set_eval w h q hq1 hq2 (2 * n) y hx1 hy (g (2 * n))
    rw [hdiv1, hif1] at hset1
    set v1 := (toGray4 (g (2 * n))).Y &&& 0x0F with hv1def
    set v2 := (toGray4 (g (2 * n + 1))).Y &&& 0x0F with hv2def
    have hv1lt : v1 < 16 := Nat.lt_succ_of_le Nat.and_le_right
    have hv2lt : v2 < 16 := Nat.lt_succ_of_le Nat.and_le_right
    set old := q.Pix.getD (y * (w / 2) + n) 0 with holddef
    have hb1 : (old &&& (0xFF ^^^ (0x0F <<< 4))) ||| (v1 <<< 4) = 16 * v1 + (old &&& 0x0F) := by
      have hmask : (0xFF ^^^ (0x0F <<< 4)) = 0x0F := by decide
      rw [hmask]
      exact nibLowOrHigh (old &&& 0x0F) (Nat.lt_succ_of_le Nat.and_le_right) v1 hv1lt
    have hshape1 := set_shape q ((2 * n : Nat) : Int) (y : Int) (g (2 * n))
    have hr1 : (q.Set ((2 * n : Nat) : Int) (y : Int) (g (2 * n))).Rect = mkRect 0 0 w h := by
      rw [hshape1.1, hq1]
    have hs1 : (q.Set ((2 * n : Nat) : Int) (y : Int) (g (2 * n))).Stride = w / 2 := by
      rw [hshape1.2.1, hq2]
    have hset2 := set_eval w h (q.Set ((2 * n : Nat) : Int) (y : Int) (g (2 * n))) hr1 hs1
      (2 * n + 1) y hx2 hy (g (2 * n + 1))
    rw [hdiv2, hif2] at hset2
    have hget1 : (q.Set ((2 * n : Nat) : Int) (y : Int) (g (2 * n))).Pix.getD
        (y * (w / 2) + n) 0 = 16 * v1 + (old &&& 0x0F) := by
      rw [hset1, getD_set_same _ _ _ hidx, hb1]
    have hb2 : ((16 * v1 + (old &&& 0x0F)) &&& (0xFF ^^^ (0x0F <<< 0))) ||| (v2 <<< 0)
        = 16 * v1 + v2 := by
      have hmask : (0xFF ^^^ (0x0F <<< 0)) = 0xF0 := by decide
      have hsh : v2 <<< 0 = v2 := Nat.shiftLeft_zero
      rw [hmask, hsh, nibHighMask v1 hv1lt (old &&& 0x0F) (Nat.lt_succ_of_le Nat.and_le_right),
        nibHighOrLow v1 hv1lt v2 hv2lt]
    refine ⟨?_, ?_, ?_, ?_, ?_⟩
    · rw [(set_shape _ _ _ _).1, hshape1.1, q1]
    · rw [(set_shape _ _ _ _).2.1, hshape1.2.1, q2]
    · rw [(set_shape _ _ _ _).2.2, hshape1.2.2, q3]
    · intro i hi
      rcases Nat.lt_succ_iff_lt_or_eq.mp hi with hi1 | hi1
      · have hne : y * (w / 2) + n ≠ y * (w / 2) + i := by omega
        rw [hset2, hget1, getD_set_other _ _ _ _ hne, hset1,
          getD_set_other _ _ _ _ hne]
        exact q4 i hi1
      · rw [hi1]
        rw [hset2, hget1, getD_set_same _ _ _ (by rw [hshape1.2.2]; exact hidx), hb2]
    · intro j hj
      have hne : y * (w / 2) + n ≠ j := by omega
      rw [hset2, hget1, getD_set_other _ _ _ _ hne, hset1, getD_set_other _ _ _ _ hne]
      exact q5 j (by omega)

theorem frame_render (w h : Nat) (hw : w % 2 = 0) (f2 : Nat → Nat → Color) :
    ∀ n, n ≤ h → ∀ p : HorizontalNibble,
      p.Rect = mkRect 0 0 w h → p.Stride = w / 2 → p.Pix.length = w / 2 * h →
      (((List.range n).foldl (fun q y =>
          (List.range w).foldl (fun q x => q.Set (x : Int) (y : Int) (f2 x y)) q) p).Rect
          = p.Rect ∧
       ((List.range n).foldl (fun q y =>
          (List.range w).foldl (fun q x => q.Set (x : Int) (y : Int) (f2 x y)) q) p).Stride
          = p.Stride ∧
       ((List.range n).foldl (fun q y =>
          (List.range w).foldl (fun q x => q.Set (x : Int) (y : Int) (f2 x y)) q) p).Pix.length
          = p.Pix.length ∧
       (∀ y i, y < n → i < w / 2 →
         ((List.range n).foldl (fun q y =>
            (List.range w).foldl (fun q x => q.Set (x : Int) (y : Int) (f2 x y)) q)
            p).Pix.getD (y * (w / 2) + i) 0
           = 16 * ((toGray4 (f2 (2 * i) y)).Y &&& 0x0F)
              + ((toGray4 (f2 (2 * i + 1) y)).Y &&& 0x0F)) ∧
       (∀ j, n * (w / 2) ≤ j →
         ((List.range n).foldl (fun q y =>
            (List.range w).foldl (fun q x => q.Set (x : Int) (y : Int) (f2 x y)) q)
            p).Pix.getD j 0 = p.Pix.getD j 0)) := by
  intro n
  induction n with
  | zero =>
    intro _ p h1 h2 h3
    simp
  | succ n ih =>
    intro hn p h1 h2 h3
    obtain ⟨q1, q2, q3, q4, q5⟩ := ih (by omega) p h1 h2 h3
    rw [List.range_succ, List.foldl_append, List.foldl_cons, List.foldl_nil]
    set q := (List.range n).foldl (fun q y =>
      (List.range w).foldl (fun q x => q.Set (x : Int) (y : Int) (f2 x y)) q) p with hqdef
    have hq1 : q.Rect = mkRect 0 0 w h := by rw [q1, h1]
    have hq2 : q.Stride = w / 2 := by rw [q2, h2]
    have hq3 : q.Pix.length = w / 2 * h := by rw [q3, h3]
    have hweq : 2 * (w / 2) = w := by omega
    have hrr := row_render w h n hw (by omega) (fun x => f2 x n) (w / 2) (le_refl (w / 2))
      q hq1 hq2 hq3
    rw [hweq] at hrr
    obtain ⟨r1, r2, r3, r4, r5⟩ := hrr
    have hbound : ∀ y i, y < n → i < w / 2 → y * (w / 2) + i < n * (w / 2) := by
      intro y i hy hi
      have := row_major_lt (w / 2) n y i hy hi
      have hcomm : (w / 2) * n = n * (w / 2) := Nat.mul_comm _ _
      omega
    refine ⟨?_, ?_, ?_, ?_, ?_⟩
    · rw [r1, q1]
    · rw [r2, q2]
    · rw [r3, q3]
    · intro y i hy hi
      rcases Nat.lt_succ_iff_lt_or_eq.mp hy with hy1 | hy1
      · rw [r5 (y * (w / 2) + i) (Or.inl (hbound y i hy1 hi))]
        exact q4 y i hy1 hi
      · rw [hy1]
        exact r4 i hi
    · intro j hj
      have hstep : (n + 1) * (w / 2) = n * (w / 2) + (w / 2) := by ring
      rw [r5 j (Or.inr (by omega))]
      exact q5 j (by omega)

theorem listCopy_full (dst src : List Nat) (hlen : dst.length = src.length) :
    listCopy dst src = src := by
  rw [listCopy]
  have hmin : min dst.length src.length = src.length := by omega
  rw [hmin, List.take_length]
  have hdrop : dst.drop src.length = [] := by
    apply List.drop_eq_nil_of_le
    omega
  rw [hdrop, List.append_nil]

theorem intersect_self (r : Rectangle) (hne : r.Empty = false) : r.Intersect r = r := by
  have hmax : (⟨max r.minX r.minX, max r.minY r.minY, min r.maxX r.maxX,
      min r.maxY r.maxY⟩ : Rectangle) = r := by
    cases r
    simp
  rw [Rectangle.Intersect]
  simp only [hmax]
  rw [if_neg (by rw [hne]; exact Bool.false_ne_true)]

theorem intRange_natCast (m : Nat) :
    intRange 0 ((m : Nat) : Int) = (List.range m).map (fun (i : Nat) => (i : Int)) := by
  rw [intRange]
  have h1 : (((m : Nat) : Int) - 0).toNat = m := by omega
  rw [h1]
  simp

theorem rect_nonempty (w h : Nat) (hw0 : 0 < w) (hh0 : 0 < h) :
    (mkRect 0 0 (w : Int) (h : Int)).Empty = false := by
  simp only [Rectangle.Empty, mkRect, Bool.or_eq_false_iff, decide_eq_false_iff_not, not_le]
  constructor <;> omega

/-- Rendering a full-frame generic source whose pixels match the committed
buffer nibble-for-nibble reproduces the committed buffer exactly. -/
theorem render_eq_buffer (w h : Nat) (hw : w % 2 = 0) (hw0 : 0 < w) (hh0 : 0 < h)
    (next0 : HorizontalNibble) (hr : next0.Rect = mkRect 0 0 w h)
    (hs : next0.Stride = w / 2) (hl : next0.Pix.length = w / 2 * h)
    (buffer : List Nat) (hbuf : buffer.length = w / 2 * h)
    (hbytes : ∀ b ∈ buffer, b < 256)
    (f : Int → Int → Color)
    (hcontent : ∀ x : Nat, x < w → ∀ y : Nat, y < h →
      (toGray4 (f x y)).Y &&& 0x0F
        = (buffer.getD (y * (w / 2) + x / 2) 0 >>> (if x % 2 = 0 then 4 else 0)) &&& 0x0F) :
    (drawDraw next0 (mkRect 0 0 w h) (.generic (mkRect 0 0 w h) f) ⟨0, 0⟩).Pix = buffer := by
  have hne := rect_nonempty w h hw0 hh0
  have hA : Rectangle.Add (mkRect 0 0 (w : Int) (h : Int))
      ⟨(mkRect 0 0 (w : Int) (h : Int)).minX - 0, (mkRect 0 0 (w : Int) (h : Int)).minY - 0⟩
        = mkRect 0 0 (w : Int) (h : Int) := by
    simp [Rectangle.Add, mkRect]
  have hdd : drawDraw next0 (mkRect 0 0 w h) (.generic (mkRect 0 0 w h) f) ⟨0, 0⟩
      = (intRange 0 (h : Int)).foldl (fun p y =>
          (intRange 0 (w : Int)).foldl (fun p x =>
            p.Set x y (f x y)) p) next0 := by
    rw [drawDraw, hr]
    simp only [Image.Bounds]
    rw [intersect_self _ hne, hA, intersect_self _ hne]
    simp only [Image.At, mkRect, sub_zero, zero_add]
  rw [hdd]
  have hrowfun : (fun (p : HorizontalNibble) (y : Int) =>
        (intRange 0 (w : Int)).foldl (fun p x => p.Set x y (f x y)) p)
      = fun (p : HorizontalNibble) (y : Int) =>
          (List.range w).foldl (fun p x => p.Set (x : Int) y (f x y)) p := by
    funext p y
    rw [intRange_natCast, List.foldl_map]
  have hmap : (intRange 0 (h : Int)).foldl (fun p y =>
        (intRange 0 (w : Int)).foldl (fun p x =>
          p.Set x y (f x y)) p) next0
      = (List.range h).foldl (fun p y =>
          (List.range w).foldl (fun p x =>
            p.Set (x : Int) (y : Int) (f x y)) p) next0 := by
    rw [hrowfun, intRange_natCast, List.foldl_map]
  rw [hmap]
  obtain ⟨e1, e2, e3, e4, e5⟩ := frame_render w h hw (fun x y => f x y) h (le_refl h)
    next0 hr hs hl
  have hlen2 : ((List.range h).foldl (fun p y =>
      (List.range w).foldl (fun p x =>
        p.Set (x : Int) (y : Int) (f x y)) p) next0).Pix.length = w / 2 * h := by
    rw [e3, hl]
  apply List.ext_getElem (by rw [hlen2, hbuf])
  intro idx h1 h2
  have hidx : idx < w / 2 * h := by rw [hlen2] at h1; exact h1
  have hs0 : 0 < w / 2 := by omega
  have hy : idx / (w / 2) < h := by
    rw [Nat.div_lt_iff_lt_mul hs0]
    have hcomm : w / 2 * h = h * (w / 2) := Nat.mul_comm _ _
    omega
  have hxlt : idx % (w / 2) < w / 2 := Nat.mod_lt _ hs0
  have hdecomp : idx / (w / 2) * (w / 2) + idx % (w / 2) = idx := by
    rw [Nat.mul_comm]
    exact Nat.div_add_mod idx (w / 2)
  have hb := e4 (idx / (w / 2)) (idx % (w / 2)) hy hxlt
  rw [hdecomp] at hb
  have hblt : buffer.getD idx 0 < 256 := by
    rw [List.getD_eq_getElem buffer 0 (by omega)]
    exact hbytes _ (List.getElem_mem (by omega))
  have hc1 := hcontent (2 * (idx % (w / 2))) (by omega) (idx / (w / 2)) hy
  have hc2 := hcontent (2 * (idx % (w / 2)) + 1) (by omega) (idx / (w / 2)) hy
  have hd1 : 2 * (idx % (w / 2)) / 2 = idx % (w / 2) := by omega
  have hd2 : (2 * (idx % (w / 2)) + 1) / 2 = idx % (w / 2) := by omega
  have hm1 : (if 2 * (idx % (w / 2)) % 2 = 0 then 4 else 0) = 4 := by
    have : 2 * (idx % (w / 2)) % 2 = 0 := by omega
    rw [this]
    decide
  have hm2 : (if (2 * (idx % (w / 2)) + 1) % 2 = 0 then 4 else 0) = 0 := by
    have : (2 * (idx % (w / 2)) + 1) % 2 = 1 := by omega
    rw [this]
    decide
  rw [hd1, hm1] at hc1
  rw [hd2, hm2] at hc2
  rw [hdecomp] at hc1 hc2
  have hsr : buffer.getD idx 0 >>> 0 = buffer.getD idx 0 := Nat.shiftRight_zero
  rw [hsr] at hc2
  have hfin : 16 * ((toGray4 (f ((2 * (idx % (w / 2)) : Nat) : Int)
        ((idx / (w / 2) : Nat) : Int))).Y &&& 0x0F)
      + ((toGray4 (f ((2 * (idx % (w / 2)) + 1 : Nat) : Int)
        ((idx / (w / 2) : Nat) : Int))).Y &&& 0x0F)
      = buffer.getD idx 0 := by
    rw [hc1, hc2]
    have hread := nibReadHigh (buffer.getD idx 0) hblt
    rw [hread]
    have hrec := nibRecompose (buffer.getD idx 0) hblt
    rw [nibReadHigh (buffer.getD idx 0) hblt] at hrec
    exact hrec
  have hgl : ((List.range h).foldl (fun p y =>
      (List.range w).foldl (fun p x =>
        p.Set (x : Int) (y : Int) (f x y)) p) next0).Pix.getD idx 0
      = buffer.getD idx 0 := by
    rw [hb]
    exact hfin
  rw [List.getD_eq_getElem _ 0 h1, List.getD_eq_getElem _ 0 h2] at hgl
  exact hgl

/-- A session whose differential baseline is stale: reachable by a slow-path
Draw of the zero frame (initialising next and lastDm to the zero frame)
followed by a successful Write of 0xAB, which copies into buffer
(ssd1322.go:265) but never into lastDm. -/
def sampleDev2x1Stale : Dev :=
  { rect := mkRect 0 0 2 1, columnOffset := 239, buffer := [0xAB],
    next := some ⟨[0x00], 1, mkRect 0 0 2 1⟩, lastDm := ⟨[0x00], 1, mkRect 0 0 2 1⟩,
    halted := false }

/-- The stale-baseline session is one successful Write away from the
consistent session: Write [0xAB] updates the committed buffer but leaves the
differential baseline lastDm at the zero frame. -/
theorem write_desynchronises_baseline :
    (({ rect := mkRect 0 0 2 1, columnOffset := 239, buffer := [0x00],
        next := some ⟨[0x00], 1, mkRect 0 0 2 1⟩,
        lastDm := ⟨[0x00], 1, mkRect 0 0 2 1⟩, halted := false } : Dev).Write
      (fun _ => true) [] [0xAB]).1 = sampleDev2x1Stale ∧
    sampleDev2x1Stale.lastDm.Pix ≠ sampleDev2x1Stale.buffer := by
  refine ⟨?_, ?_⟩ <;> decide

/-- In the stale-baseline session, even a differential-path Draw of a
candidate byte-identical to the committed buffer performs transport
operations: the diff runs against the stale lastDm, not the committed
buffer. This is why the baseline-consistency proviso of the amended claim
is necessary. -/
theorem draw_stale_baseline_transmits :
    (sampleDev2x1Stale.Draw (fun _ => true) [] (mkRect 0 0 2 1)
        (.generic (mkRect 0 0 2 1)
          (fun x _ => if x = 0 then Color.gray4 ⟨0xA⟩ else Color.gray4 ⟨0xB⟩))
        ⟨0, 0⟩).2.1 ≠ [] := by
  decide

/-- C2 amended: for every non-halted session whose differential state agrees
with the committed frame - the double buffer not yet initialised, or the
differential baseline lastDm byte-equal to the committed buffer - a candidate
frame whose pixel content is identical to the committed frame makes Draw
return success with no transport call when it takes the differential path
(here a generic full-frame source at the origin). Both provisos are forced:
a full-size HorizontalNibble source takes the fast path, which always
transmits a full frame, and a raw Write desynchronises the baseline so that
even a differential Draw of a committed-identical candidate transmits. -/
theorem draw_identical_no_transport (w h : Nat) (hw : w % 2 = 0) (hw0 : 0 < w)
    (hh0 : 0 < h) (d : Dev) (oracle : Oracle) (tr : List Ev)
    (hhalt : d.halted = false) (hrect : d.rect = mkRect 0 0 w h)
    (hbuf : d.buffer.length = w / 2 * h) (hbytes : ∀ b ∈ d.buffer, b < 256)
    (hinv : d.next = none ∨ ∃ nx, d.next = some nx ∧ nx.Rect = mkRect 0 0 (w : Int) (h : Int) ∧
      nx.Stride = w / 2 ∧ nx.Pix.length = w / 2 * h ∧ d.lastDm.Pix = d.buffer)
    (f : Int → Int → Color)
    (hcontent : ∀ x : Nat, x < w → ∀ y : Nat, y < h →
      (toGray4 (f x y)).Y &&& 0x0F
        = (d.buffer.getD (y * (w / 2) + x / 2) 0 >>> (if x % 2 = 0 then 4 else 0)) &&& 0x0F) :
    (d.Draw oracle tr (mkRect 0 0 w h) (.generic (mkRect 0 0 w h) f) ⟨0, 0⟩).2.1 = tr ∧
    (d.Draw oracle tr (mkRect 0 0 w h) (.generic (mkRect 0 0 w h) f) ⟨0, 0⟩).2.2
      = Except.ok () := by
  have hne := rect_nonempty w h hw0 hh0
  have hdraw : d.Draw oracle tr (mkRect 0 0 w h) (.generic (mkRect 0 0 w h) f) ⟨0, 0⟩
      = d.drawSlow oracle tr (mkRect 0 0 w h) (.generic (mkRect 0 0 w h) f) ⟨0, 0⟩ := by
    simp only [Dev.Draw]
    rw [if_neg (by rw [hhalt]; exact Bool.false_ne_true), hrect, intersect_self _ hne,
      if_neg (by rw [hne]; exact Bool.false_ne_true)]
  rw [hdraw]
  have hDx : (mkRect 0 0 (w : Int) (h : Int)).Dx.toNat = w := by
    simp only [Rectangle.Dx, mkRect]
    omega
  have hDy : (mkRect 0 0 (w : Int) (h : Int)).Dy.toNat = h := by
    simp only [Rectangle.Dy, mkRect]
    omega
  have hnodiff : ∀ y x, y < h → x < w / 2 → ¬ByteDiff d.buffer d.buffer (w / 2) y x := by
    intro y x _ _ hbd
    exact hbd rfl
  have hlen2 : h * (w / 2) ≤ d.buffer.length := by
    rw [hbuf]
    exact Nat.le_of_eq (Nat.mul_comm h (w / 2))
  have hcd := calculateDiff_of_no_diff w h hw d.buffer d.buffer hlen2 hlen2 hnodiff
  have hcond : ((⟨(w : Int), -1, (h : Int), -1⟩ : DiffAcc)).minCol
      > ((⟨(w : Int), -1, (h : Int), -1⟩ : DiffAcc)).maxCol := by
    show (-1 : Int) < (w : Int)
    omega
  rcases hinv with hnone | ⟨nx, hsome, hnxr, hnxs, hnxl, hlast⟩
  · have hnew : NewHorizontalNibble (mkRect 0 0 (w : Int) (h : Int))
        = ⟨List.replicate (w / 2 * h) 0, w / 2, mkRect 0 0 w h⟩ := by
      rw [NewHorizontalNibble]
      have hDxe : (mkRect 0 0 (w : Int) (h : Int)).Dx = (w : Int) := by
        simp only [Rectangle.Dx, mkRect]
        omega
      have hDye : (mkRect 0 0 (w : Int) (h : Int)).Dy = (h : Int) := by
        simp only [Rectangle.Dy, mkRect]
        omega
      rw [hDxe, hDye]
      rw [if_neg (by simp)]
      have ht : (((w : Nat) : Int)).tdiv 2 = ((w / 2 : Nat) : Int) := tdiv_natCast w 2
      rw [ht]
      have t1 : (((w / 2 : Nat) : Int)).toNat = w / 2 := by omega
      have t2 : (((h : Nat) : Int)).toNat = h := by omega
      rw [t1, t2]
    have hlcopy : listCopy (List.replicate d.buffer.length 0) d.buffer = d.buffer :=
      listCopy_full _ _ (by simp)
    have hnext1 : (drawDraw (⟨List.replicate (w / 2 * h) 0, w / 2,
          mkRect 0 0 w h⟩ : HorizontalNibble)
        (mkRect 0 0 w h) (.generic (mkRect 0 0 w h) f) ⟨0, 0⟩).Pix = d.buffer :=
      render_eq_buffer w h hw hw0 hh0 _ rfl rfl (by simp) d.buffer hbuf hbytes f hcontent
    simp only [Dev.drawSlow, hnone, hnew, hrect, hDx, hDy, hlcopy, hnext1, hcd]
    rw [if_pos hcond]
    exact ⟨rfl, rfl⟩
  · have hnext1 : (drawDraw nx (mkRect 0 0 w h)
        (.generic (mkRect 0 0 w h) f) ⟨0, 0⟩).Pix = d.buffer :=
      render_eq_buffer w h hw hw0 hh0 nx hnxr hnxs hnxl d.buffer hbuf hbytes f hcontent
    simp only [Dev.drawSlow, hsome, hrect, hDx, hDy, hnext1, hlast, hcd]
    rw [if_pos hcond]
    exact ⟨rfl, rfl⟩

/-- C2 amended-claim witness: a 2 by 1 session showing 0xAB, redrawn with a
generic source of the same two pixel values, performs no transport call. -/
theorem draw_identical_no_transport_witness :
    (sampleDev2x1AB.Draw (fun _ => true) [] (mkRect 0 0 2 1)
        (.generic (mkRect 0 0 2 1)
          (fun x _ => if x = 0 then Color.gray4 ⟨0xA⟩ else Color.gray4 ⟨0xB⟩))
        ⟨0, 0⟩).2.1 = ([] : List Ev) ∧
    (sampleDev2x1AB.Draw (fun _ => true) [] (mkRect 0 0 2 1)
        (.generic (mkRect 0 0 2 1)
          (fun x _ => if x = 0 then Color.gray4 ⟨0xA⟩ else Color.gray4 ⟨0xB⟩))
        ⟨0, 0⟩).2.2 = Except.ok () :=
  draw_identical_no_transport 2 1 rfl (by decide) (by decide) sampleDev2x1AB
    (fun _ => true) [] rfl rfl rfl (by decide) (Or.inl rfl)
    (fun x _ => if x = 0 then Color.gray4 ⟨0xA⟩ else Color.gray4 ⟨0xB⟩) (by decide)

end SSD1322
